import Mathlib

/-!
# pecs: entity registry, mutation queues, refresh protocol and dispatch

A shallow embedding of `include/pecs.hpp` (struct `entity_t`, struct `system_t`,
struct `world_t`) and of `resize` from `example/main.cpp`, with the properties of the
entity bookkeeping, the refresh protocol, the priority dispatch and the component storage
growth.

Modelling conventions
* `std::vector<T>` is a `List T`; `v[i]` with `i` out of range is undefined behaviour in the
  source and makes the embedded operation return `none`.
* `uint32_t` / `uint64_t` fields are natural numbers; `x++` on a `uint32_t` is
  `(x + 1) % 2 ^ 32`.  `x--` is only executed under a guard `x != 0` and is `x - 1`.
* `system_t*` is an address (`Nat`); the system objects live in a heap `Nat → system_t`
  owned by the caller.  The virtual hooks are the no-ops of the base class; every call of
  one is recorded as an `event`.
* `std::sort` belongs to the C++ standard library; `update` takes it as a parameter and the
  theorems assume of it only what the standard promises (`std_sort_contract`).  Where a
  concrete run is needed, the parameter is the algorithm of GNU libstdc++
  (`libstdcxx_sort`).
* Loops whose termination is part of a property take a bound on the number of iterations
  (`resize_loop`); the theorems show which bound is always enough.
-/

namespace pecs

/-- Entity record (`struct entity_t`). -/
structure entity_t where
  alive : Bool
  id : Nat
  mask : Nat
deriving DecidableEq, Repr

/-- Constructor `entity_t(uint32_t _id)`: `alive(false), id(_id), mask(0)`. -/
def entity_t.create (_id : Nat) : entity_t :=
  { alive := false, id := _id, mask := 0 }

/-- System object (`struct system_t`); `world` is `true` when the back-reference points to
the world and `false` when it is `nullptr`. -/
structure system_t where
  priority : Int
  active : Bool
  mask : Nat
  world : Bool
deriving DecidableEq, Repr

/-- Constructor `system_t()`: `priority(0), active(true), mask(0), world(nullptr)`. -/
def system_t.create : system_t :=
  { priority := 0, active := true, mask := 0, world := false }

/-- The caller-owned system objects, by address. -/
abbrev heap_t := Nat → system_t

/-- World (`struct world_t`). `systems`, `queue_systems`, `rm_queue_systems` hold
addresses of system objects. -/
structure world_t where
  systems : List Nat
  queue_systems : List Nat
  rm_queue_systems : List Nat
  entities : List entity_t
  queue_entities : List Nat
  rm_queue_entities : List Nat
  dead_entities : Nat
  next_id : Nat
deriving DecidableEq, Repr

/-- Constructor `world_t()`: empty vectors, `dead_entities(0), next_id(0)`. -/
def world_t.create : world_t :=
  { systems := [], queue_systems := [], rm_queue_systems := [],
    entities := [], queue_entities := [], rm_queue_entities := [],
    dead_entities := 0, next_id := 0 }

/-- One call of a virtual hook of the system at address `s`. -/
inductive event where
  | on_remove_world (s : Nat)
  | on_add_world (s : Nat)
  | on_remove_entity (s : Nat) (id : Nat)
  | on_add_entity (s : Nat) (id : Nat)
  | update (s : Nat)
deriving DecidableEq, Repr

/-- `world_t::_spawn_entity`: `entity_t e(next_id); next_id++; return e;`. -/
def _spawn_entity (w : world_t) : entity_t × world_t :=
  (entity_t.create w.next_id, { w with next_id := (w.next_id + 1) % 2 ^ 32 })

/-- The linear scan of `get_entity`: `for (auto &e : entities) if (!e.alive) { e.mask = 0;
return e; }`. Returns the record handed out and the updated sequence, or `none` when the
loop runs to the end. -/
def scan_dead : List entity_t → Option (entity_t × List entity_t)
  | [] => none
  | e :: es =>
    if e.alive = false then
      some ({ e with mask := 0 }, { e with mask := 0 } :: es)
    else
      match scan_dead es with
      | none => none
      | some (r, es') => some (r, e :: es')

/-- `world_t::get_entity`.

In the removal-queue loop `it` is `begin()`; the body runs `erase(it)` and only then reads
`*it`. After the erase the iterator addresses the entry that followed the erased one, so
that entry names the record handed out. When the queue had a single entry the iterator is
`end()` after the erase and the read is out of range. -/
def get_entity (w : world_t) : Option (entity_t × world_t) :=
  if w.dead_entities = 0 then
    some (_spawn_entity w)
  else
    match w.rm_queue_entities with
    | [_] => none
    | _ :: r :: rest =>
      match w.entities[r]? with
      | none => none
      | some e =>
        some ({ e with mask := 0 },
          { w with
            dead_entities := w.dead_entities - 1,
            rm_queue_entities := r :: rest,
            entities := w.entities.set r { e with mask := 0 } })
    | [] =>
      match scan_dead w.entities with
      | some (e, es) =>
        some (e, { w with dead_entities := w.dead_entities - 1, entities := es })
      | none => some (_spawn_entity w)

/-- `world_t::add(entity_t&)`: at most one `push_back`, then `entities[entity.id] = entity`
and the id is queued. -/
def add (w : world_t) (entity : entity_t) : Option world_t :=
  let es := if entity.id ≥ w.entities.length then w.entities ++ [entity] else w.entities
  if entity.id < es.length then
    some { w with
      entities := es.set entity.id entity,
      queue_entities := w.queue_entities ++ [entity.id] }
  else
    none

/-- `world_t::kill`: `dead_entities++; rm_queue_entities.push_back(entity.id);`. -/
def kill (w : world_t) (entity : entity_t) : world_t :=
  { w with
    dead_entities := (w.dead_entities + 1) % 2 ^ 32,
    rm_queue_entities := w.rm_queue_entities ++ [entity.id] }

/-- `world_t::clear_entities`: `kill` on every stored record, in order. -/
def clear_entities (w : world_t) : world_t :=
  w.entities.foldl kill w

/-- `world_t::add(system_t*)`. -/
def add_system (w : world_t) (system : Nat) : world_t :=
  { w with queue_systems := w.queue_systems ++ [system] }

/-- `world_t::remove(system_t*)`. -/
def remove (w : world_t) (system : Nat) : world_t :=
  { w with rm_queue_systems := w.rm_queue_systems ++ [system] }

/-- `world_t::clear_systems`. -/
def clear_systems (w : world_t) : world_t :=
  w.systems.foldl remove w

/-- First loop of `refresh`: for each queued system that `std::find` locates, erase that
occurrence, call `on_remove(this)` and reset the back-reference. -/
def refresh_rm_systems (h : heap_t) (systems : List Nat) :
    List Nat → heap_t × List Nat × List event
  | [] => (h, systems, [])
  | s :: q =>
    if s ∈ systems then
      let r := refresh_rm_systems
        (Function.update h s { h s with world := false }) (systems.erase s) q
      (r.1, r.2.1, event.on_remove_world s :: r.2.2)
    else
      refresh_rm_systems h systems q

/-- Second loop of `refresh`: each queued system that `std::find` does not locate is
appended, gets its back-reference set and `on_add(this)` called. -/
def refresh_add_systems (h : heap_t) (systems : List Nat) :
    List Nat → heap_t × List Nat × List event
  | [] => (h, systems, [])
  | s :: q =>
    if s ∈ systems then
      refresh_add_systems h systems q
    else
      let r := refresh_add_systems
        (Function.update h s { h s with world := true }) (systems ++ [s]) q
      (r.1, r.2.1, event.on_add_world s :: r.2.2)

/-- The inner loop of both entity phases: the hook is called on every registered system
with `(entity.mask & system->mask) == system->mask`, in collection order. -/
def notify (h : heap_t) (systems : List Nat) (mask : Nat) (hook : Nat → event) :
    List event :=
  (systems.filter (fun s => mask &&& (h s).mask = (h s).mask)).map hook

/-- Third and fourth loop of `refresh`, which differ only in the flag written
(`entity.alive = false` / `true`) and the hook called (`on_remove` / `on_add`):
for each queued id, `auto &entity = entities[id]; entity.alive = flag;` then the
notifications. -/
def refresh_entities (h : heap_t) (systems : List Nat) (flag : Bool)
    (hook : Nat → Nat → event) :
    List Nat → List entity_t → Option (List entity_t × List event)
  | [], es => some (es, [])
  | id :: q, es =>
    match es[id]? with
    | none => none
    | some e =>
      match refresh_entities h systems flag hook q (es.set id { e with alive := flag }) with
      | none => none
      | some (es', tr) => some (es', notify h systems e.mask (fun s => hook s id) ++ tr)

/-- `world_t::refresh`: the four loops in order, each followed by the `clear()` of its
queue. Returns the heap, the world and the hook calls made. -/
def refresh (h : heap_t) (w : world_t) : Option (heap_t × world_t × List event) :=
  let r1 := refresh_rm_systems h w.systems w.rm_queue_systems
  let r2 := refresh_add_systems r1.1 r1.2.1 w.queue_systems
  match refresh_entities r2.1 r2.2.1 false event.on_remove_entity
      w.rm_queue_entities w.entities with
  | none => none
  | some (es3, tr3) =>
    match refresh_entities r2.1 r2.2.1 true event.on_add_entity w.queue_entities es3 with
    | none => none
    | some (es4, tr4) =>
      some (r2.1,
        { w with
          systems := r2.2.1, queue_systems := [], rm_queue_systems := [],
          entities := es4, queue_entities := [], rm_queue_entities := [] },
        r1.2.2 ++ r2.2.2 ++ tr3 ++ tr4)

/-- One respawn of the example driver (`main`, the kill/respawn check):
`auto e = world.get_entity(); world.set_component(&e, ...); world.add(e);`.
The `set_component` calls only change the mask of the handle `e`, to `m`. -/
def respawn (w : world_t) (m : Nat) : Option world_t :=
  match get_entity w with
  | none => none
  | some (e, w') => add w' { e with mask := m }

/-- The respawn loop of the example driver, one iteration per mask in the list. -/
def respawn_all : world_t → List Nat → Option world_t
  | w, [] => some w
  | w, m :: ms =>
    match respawn w m with
    | none => none
    | some w' => respawn_all w' ms

/-- The kill loop of the example driver: `kill` on each entity of the list, in order. -/
def kill_all (w : world_t) (xs : List entity_t) : world_t :=
  xs.foldl kill w

/-- World states reachable from the empty world by calls of `get_entity` (allocate),
`add(entity_t&)` (register), `kill` and `refresh` that run without an out-of-range access.
The arguments of `add` and `kill` are arbitrary entity values. -/
inductive Reachable : world_t → Prop
  | start : Reachable world_t.create
  | allocate {w w' : world_t} {e : entity_t} :
      Reachable w → get_entity w = some (e, w') → Reachable w'
  | register {w w' : world_t} (e : entity_t) :
      Reachable w → add w e = some w' → Reachable w'
  | killed {w : world_t} (e : entity_t) : Reachable w → Reachable (kill w e)
  | refreshed {w w' : world_t} {h h' : heap_t} {tr : List event} :
      Reachable w → refresh h w = some (h', w', tr) → Reachable w'

/-- Every stored record sits at the index given by its own `id`. -/
def ids_are_indices (es : List entity_t) : Prop :=
  ∀ (i : Nat) (e : entity_t), es[i]? = some e → e.id = i

/-- Every queued id is a valid index of the entity sequence. -/
def valid_ids (q : List Nat) (es : List entity_t) : Prop :=
  ∀ x ∈ q, x < es.length

instance (q : List Nat) (es : List entity_t) : Decidable (valid_ids q es) := by
  unfold valid_ids
  infer_instance

/-- A heap in which every address holds a default-constructed system. -/
def default_heap : heap_t := fun _ => system_t.create

/-- The four entity operations of the world as a caller can sequence them. -/
inductive op where
  | allocate
  | register (e : entity_t)
  | kill (e : entity_t)
  | refresh
deriving DecidableEq, Repr

/-- One call on the world, with the system objects in heap `h`; the returned handle of
`get_entity` and the hook calls of `refresh` are dropped. -/
def step (h : heap_t) (w : world_t) : op → Option world_t
  | op.allocate => (get_entity w).map (fun r => r.2)
  | op.register e => add w e
  | op.kill e => some (kill w e)
  | op.refresh => (refresh h w).map (fun r => r.2.1)

/-- A sequence of calls, stopping at the first out-of-range access. -/
def run (h : heap_t) : world_t → List op → Option world_t
  | w, [] => some w
  | w, o :: os =>
    match step h w o with
    | none => none
    | some w' => run h w' os

/-- The world after two entities were allocated, registered and activated by a refresh. -/
def world_two_alive : world_t :=
  { world_t.create with entities := [⟨true, 0, 0⟩, ⟨true, 1, 0⟩], next_id := 2 }

/-- The world `world_two_alive` after entity 0 was killed and a refresh deactivated it. -/
def world_one_dead : world_t :=
  { world_t.create with
    entities := [⟨false, 0, 0⟩, ⟨true, 1, 0⟩], dead_entities := 1, next_id := 2 }

/-- The world after one entity was allocated, registered and activated by a refresh. -/
def world_one_alive : world_t :=
  { world_t.create with entities := [⟨true, 0, 0⟩], next_id := 1 }

/-- The world after two entities with masks 3 and 5 were allocated, registered and
activated, and then killed in the order 0, 1 (no refresh since the kills). -/
def world_two_killed : world_t :=
  { world_t.create with
    entities := [⟨true, 0, 3⟩, ⟨true, 1, 5⟩], rm_queue_entities := [0, 1],
    dead_entities := 2, next_id := 2 }

/-- The mask of the record stored at index `id` (0 when there is none). -/
def mask_at (es : List entity_t) (id : Nat) : Nat :=
  ((es[id]?).map entity_t.mask).getD 0

/-- Three system objects at addresses 0, 1, 2 with priorities 3, 1, 2 and masks 1, 2, 0; the
system at address 2 is inactive. -/
def demo_heap : heap_t := fun s =>
  match s with
  | 0 => { priority := 3, active := true, mask := 1, world := true }
  | 1 => { priority := 1, active := true, mask := 2, world := false }
  | 2 => { priority := 2, active := false, mask := 0, world := false }
  | _ => system_t.create

/-- A world with system 0 registered and queued for removal, systems 1 and 2 queued for
addition, entity 0 (mask 3) queued for removal and entity 1 (mask 1) queued for addition. -/
def demo_world : world_t :=
  { systems := [0], queue_systems := [1, 2], rm_queue_systems := [0],
    entities := [⟨true, 0, 3⟩, ⟨false, 1, 1⟩],
    queue_entities := [1], rm_queue_entities := [0],
    dead_entities := 1, next_id := 2 }

/-- The type of `std::sort(first, last, comp)` on a vector of system addresses: comparator
and sequence in, sequence out. It is a function of the C++ standard library, so `update`
takes it as a parameter. -/
abbrev sort_t := (Nat → Nat → Bool) → List Nat → List Nat

/-- What the C++ standard promises of `std::sort` for a comparator `key a < key b`: the
result is a permutation of the input in which no element is followed by one of strictly
smaller key. The order of elements of equal key is not specified. -/
def std_sort_contract (sort : sort_t) : Prop :=
  ∀ (key : Nat → Int) (l : List Nat),
    (sort (fun a b => decide (key a < key b)) l).Perm l ∧
    (sort (fun a b => decide (key a < key b)) l).Pairwise (fun a b => key a ≤ key b)

/-- `world_t::update`: `refresh()`, then `std::sort` of `systems` with the comparator
`a->priority < b->priority`, then `update(dt)` on every system with `active` set, in the
sorted order. The argument `dt` is only passed on to the hooks and is left out. -/
def update (sort : sort_t) (h : heap_t) (w : world_t) :
    Option (heap_t × world_t × List event) :=
  match refresh h w with
  | none => none
  | some (h1, w1, tr) =>
    some (h1,
      { w1 with
        systems := sort (fun a b => decide ((h1 a).priority < (h1 b).priority)) w1.systems },
      tr ++ ((sort (fun a b => decide ((h1 a).priority < (h1 b).priority))
        w1.systems).filter (fun s => (h1 s).active)).map event.update)

/-- One admissible `std::sort`: insertion sort, which keeps elements of equal key in their
input order. -/
def insertion_sort : sort_t := fun lt l =>
  l.insertionSort (fun a b => lt b a = false)

/-- Three active system objects at addresses 0, 1, 2 with priorities 3, 1, 2. -/
def priority_heap : heap_t := fun s =>
  match s with
  | 0 => { priority := 3, active := true, mask := 0, world := false }
  | 1 => { priority := 1, active := true, mask := 0, world := false }
  | 2 => { priority := 2, active := true, mask := 0, world := false }
  | _ => system_t.create

/-- The world after system 0 was registered and one entity was allocated, registered and
activated, all by one refresh. -/
def world_one_system : world_t :=
  { world_t.create with systems := [0], entities := [⟨true, 0, 0⟩], next_id := 1 }

/-- The world after one entity was allocated and registered, before any refresh. -/
def world_one_pending : world_t :=
  { world_t.create with entities := [⟨false, 0, 0⟩], queue_entities := [0], next_id := 1 }

/-- Calls on the world under disciplined use: allocate alone, allocate followed at once by
the registration of the entity returned (with mask `m` set on the handle), kill of the
record stored at index `i`, refresh. -/
inductive dop where
  | allocate
  | allocate_register (m : Nat)
  | kill (i : Nat)
  | refresh
deriving DecidableEq, Repr

/-- One disciplined call; `kill` is only made on a stored record that is alive and whose id
is not already in the removal queue, as `world.kill(world.entities[i])`. -/
def dstep (h : heap_t) (w : world_t) : dop → Option world_t
  | dop.allocate => (get_entity w).map (fun r => r.2)
  | dop.allocate_register m => respawn w m
  | dop.kill i =>
    match w.entities[i]? with
    | none => none
    | some e =>
      if e.alive = true ∧ e.id ∉ w.rm_queue_entities then some (kill w e) else none
  | dop.refresh => (refresh h w).map (fun r => r.2.1)

/-- A sequence of disciplined calls; `none` when a call is not allowed or runs out of
range. -/
def drun (h : heap_t) : world_t → List dop → Option world_t
  | w, [] => some w
  | w, o :: os =>
    match dstep h w o with
    | none => none
    | some w' => drun h w' os

/-- The world with entity 0 alive and entity 1 allocated and registered but not yet
activated. -/
def world_alive_and_pending : world_t :=
  { world_t.create with
    entities := [⟨true, 0, 0⟩, ⟨false, 1, 0⟩], queue_entities := [1], next_id := 2 }

/-- A `std::vector<T>` of components: its elements and its `capacity()`. -/
structure vector_t (T : Type) where
  data : List T
  capacity : Nat

/-- The loop of `resize` (example driver): `while (c <= id) { c = std::max<size_t>(c, 1);
c = c << 1; }` on a 64-bit `size_t` (the driver prints `size_t` values with `%lu`). The
first argument bounds the number of iterations; `none` means the bound was reached with the
loop still running. -/
def resize_loop : Nat → Nat → Nat → Option Nat
  | 0, c, id => if c ≤ id then none else some c
  | fuel + 1, c, id =>
    if c ≤ id then resize_loop fuel ((max c 1 <<< 1) % 2 ^ 64) id else some c

/-- `std::vector<T>::reserve(n)`: the capacity becomes at least `n`, the elements stay. -/
def vector_reserve {T : Type} (v : vector_t T) (n : Nat) : vector_t T :=
  if v.capacity < n then { v with capacity := n } else v

/-- `std::vector<T>::resize(n)`: the first `n` elements are kept, and value-initialised
elements `d` are appended up to size `n`. -/
def vector_resize {T : Type} (d : T) (v : vector_t T) (n : Nat) : vector_t T :=
  if n ≤ v.data.length then
    { v with data := v.data.take n }
  else
    { data := v.data ++ List.replicate (n - v.data.length) d, capacity := max v.capacity n }

/-- `resize(components, id)` of the example driver: the capacity loop, then, if
`components.size() <= id`, `reserve(c)` and `resize(id+1)`, where `id+1` is computed in
`uint32_t`. -/
def resize {T : Type} (fuel : Nat) (d : T) (components : vector_t T) (id : Nat) :
    Option (vector_t T) :=
  match resize_loop fuel components.capacity id with
  | none => none
  | some c =>
    if components.data.length ≤ id then
      some (vector_resize d (vector_reserve components c) ((id + 1) % 2 ^ 32))
    else
      some components

/-- The doubling of the specification, "doubles until it strictly exceeds the target id":
from `c`, double while `c ≤ id`, at most `fuel` times. -/
def spec_capacity_loop : Nat → Nat → Nat → Nat
  | 0, c, _ => c
  | fuel + 1, c, id => if c ≤ id then spec_capacity_loop fuel (2 * c) id else c

/-- The capacity in the words of the specification: start at `max(c0, 1)` and double only
until the value strictly exceeds `id`. (With a start of at least 1, `id + 1` doublings are
always enough.) -/
def spec_capacity (c0 id : Nat) : Nat :=
  spec_capacity_loop (id + 1) (max c0 1) id

/-- C1 (amended): with `dead_entities == 0` (and `next_id` a 32-bit value), `get_entity`
returns the entity `(alive = false, id = old next_id, mask = 0)`, increases `next_id` by
exactly 1 unless it is `2 ^ 32 - 1`, in which case `next_id` wraps to 0, and leaves the
entity sequence, the four queues, the system collection and `dead_entities` as they
were. -/
theorem get_entity_mints_when_no_dead (w : world_t) (hd : w.dead_entities = 0)
    (hn : w.next_id < 2 ^ 32) :
    ∃ e w', get_entity w = some (e, w') ∧
      e.id = w.next_id ∧ e.alive = false ∧ e.mask = 0 ∧
      w'.next_id = (if w.next_id = 2 ^ 32 - 1 then 0 else w.next_id + 1) ∧
      w'.entities = w.entities ∧
      w'.queue_entities = w.queue_entities ∧
      w'.rm_queue_entities = w.rm_queue_entities ∧
      w'.queue_systems = w.queue_systems ∧
      w'.rm_queue_systems = w.rm_queue_systems ∧
      w'.systems = w.systems ∧
      w'.dead_entities = w.dead_entities := by
  refine ⟨entity_t.create w.next_id, { w with next_id := (w.next_id + 1) % 2 ^ 32 }, ?_,
    rfl, rfl, rfl, ?_, rfl, rfl, rfl, rfl, rfl, rfl, rfl⟩
  · simp [get_entity, hd, _spawn_entity]
  · show (w.next_id + 1) % 2 ^ 32 = _
    by_cases hmax : w.next_id = 2 ^ 32 - 1
    · rw [if_pos hmax, hmax]
      rfl
    · rw [if_neg hmax]
      exact Nat.mod_eq_of_lt (by omega)

/-- Witness of C1 (amended) at the empty world: the first entity minted has id 0 and
`next_id` becomes 1. -/
theorem get_entity_mints_when_no_dead_witness :
    world_t.create.dead_entities = 0 ∧ world_t.create.next_id < 2 ^ 32 ∧
    ∃ e w', get_entity world_t.create = some (e, w') ∧
      e.id = world_t.create.next_id ∧ e.alive = false ∧ e.mask = 0 ∧
      w'.next_id =
        (if world_t.create.next_id = 2 ^ 32 - 1 then 0 else world_t.create.next_id + 1) ∧
      w'.entities = world_t.create.entities ∧
      w'.queue_entities = world_t.create.queue_entities ∧
      w'.rm_queue_entities = world_t.create.rm_queue_entities ∧
      w'.queue_systems = world_t.create.queue_systems ∧
      w'.rm_queue_systems = world_t.create.rm_queue_systems ∧
      w'.systems = world_t.create.systems ∧
      w'.dead_entities = world_t.create.dead_entities :=
  ⟨rfl, by decide, get_entity_mints_when_no_dead world_t.create rfl (by decide)⟩

/-- Every value of the 32-bit counter `next_id` is reached by minting from the empty
world. -/
theorem reachable_minted (n : Nat) (hn : n < 2 ^ 32) :
    Reachable { world_t.create with next_id := n } := by
  induction n with
  | zero => exact Reachable.start
  | succ k ih =>
    have hk : Reachable { world_t.create with next_id := k } := ih (by omega)
    have hg : get_entity { world_t.create with next_id := k } =
        some (entity_t.create k, { world_t.create with next_id := k + 1 }) := by
      have hlt : k + 1 < 4294967296 := by omega
      simp [get_entity, _spawn_entity, world_t.create, Nat.mod_eq_of_lt hlt]
    exact Reachable.allocate hk hg

/-- C1 (counterexample): the world reached by minting `2 ^ 32 - 1` entities has
`dead_entities == 0` and `next_id == 4294967295`; `get_entity` returns id 4294967295 and
leaves `next_id` at 0, not at 4294967296. -/
theorem get_entity_wraps_next_id :
    Reachable { world_t.create with next_id := 4294967295 } ∧
    ({ world_t.create with next_id := 4294967295 } : world_t).dead_entities = 0 ∧
    (get_entity { world_t.create with next_id := 4294967295 }).map
      (fun r => (r.1.id, r.2.next_id)) = some (4294967295, 0) ∧
    (0 : Nat) ≠ 4294967295 + 1 :=
  ⟨reachable_minted 4294967295 (by decide), by decide, by decide, by decide⟩

/-! ## The linear scan -/

/-- The scan finds the first record with `alive == false`, resets its mask in place and
hands it out. -/
theorem scan_dead_some (es : List entity_t) (hx : ∃ e ∈ es, e.alive = false) :
    ∃ i e, es[i]? = some e ∧ e.alive = false ∧
      (∀ (j : Nat) (x : entity_t), j < i → es[j]? = some x → x.alive = true) ∧
      scan_dead es = some ({ e with mask := 0 }, es.set i { e with mask := 0 }) := by
  induction es with
  | nil => simp at hx
  | cons a es ih =>
    by_cases ha : a.alive = false
    · exact ⟨0, a, by simp, ha, by simp, by simp [scan_dead, ha]⟩
    · have hx' : ∃ e ∈ es, e.alive = false := by
        obtain ⟨e, he, hf⟩ := hx
        rcases List.mem_cons.1 he with rfl | hmem
        · exact absurd hf ha
        · exact ⟨e, hmem, hf⟩
      obtain ⟨i, e, h1, h2, h3, h4⟩ := ih hx'
      refine ⟨i + 1, e, by simpa using h1, h2, ?_, by simp [scan_dead, ha, h4]⟩
      intro j x hj hjx
      cases j with
      | zero =>
        simp at hjx
        subst hjx
        simpa using ha
      | succ j => exact h3 j x (by omega) (by simpa using hjx)

/-- The scan runs to the end exactly when every stored record is alive. -/
theorem scan_dead_none (es : List entity_t) (hx : ∀ e ∈ es, e.alive = true) :
    scan_dead es = none := by
  induction es with
  | nil => rfl
  | cons a es ih =>
    have ha : a.alive = true := hx a (List.mem_cons_self a es)
    have ih' := ih (fun e he => hx e (List.mem_cons_of_mem a he))
    simp [scan_dead, ha, ih']

/-- With dead entities counted and an empty removal queue, `get_entity` hands out what the
scan found and decrements the counter. -/
theorem get_entity_scan_eq (w : world_t) (r : entity_t) (es : List entity_t)
    (hd : w.dead_entities ≠ 0) (hq : w.rm_queue_entities = [])
    (hs : scan_dead w.entities = some (r, es)) :
    get_entity w =
      some (r, { w with dead_entities := w.dead_entities - 1, entities := es }) := by
  simp [get_entity, hd, hq, hs]

/-- C6: with `dead_entities > 0`, an empty removal queue and some stored record with
`alive == false`, `get_entity` hands out the record `e` at the smallest index `i` among the
dead ones with its mask reset to 0 (in the returned value and in the stored record),
decrements `dead_entities` by one, and changes no other record, nor the length of the
sequence, `next_id`, the queues or the system collection. -/
theorem get_entity_linear_scan (w : world_t) (hd : 0 < w.dead_entities)
    (hq : w.rm_queue_entities = []) (hx : ∃ e ∈ w.entities, e.alive = false) :
    ∃ i e r w', get_entity w = some (r, w') ∧
      w.entities[i]? = some e ∧ e.alive = false ∧
      (∀ (j : Nat) (x : entity_t), j < i → w.entities[j]? = some x → x.alive = true) ∧
      r = { e with mask := 0 } ∧
      w'.entities[i]? = some { e with mask := 0 } ∧
      (∀ j : Nat, j ≠ i → w'.entities[j]? = w.entities[j]?) ∧
      w'.entities.length = w.entities.length ∧
      w'.dead_entities + 1 = w.dead_entities ∧
      w'.next_id = w.next_id ∧
      w'.queue_entities = w.queue_entities ∧
      w'.rm_queue_entities = w.rm_queue_entities ∧
      w'.queue_systems = w.queue_systems ∧
      w'.rm_queue_systems = w.rm_queue_systems ∧
      w'.systems = w.systems := by
  obtain ⟨i, e, h1, h2, h3, h4⟩ := scan_dead_some w.entities hx
  have hi : i < w.entities.length := (List.getElem?_eq_some.1 h1).1
  refine ⟨i, e, { e with mask := 0 },
    { w with dead_entities := w.dead_entities - 1,
             entities := w.entities.set i { e with mask := 0 } }, ?_, h1, h2, h3, rfl, ?_, ?_,
    ?_, ?_, rfl, rfl, rfl, rfl, rfl, rfl⟩
  · have hne : w.dead_entities ≠ 0 := by omega
    simp [get_entity, hne, hq, h4]
  · simp [List.getElem?_set, hi]
  · intro j hj
    simp [List.getElem?_set, Ne.symm hj]
  · simp
  · show w.dead_entities - 1 + 1 = w.dead_entities
    omega

/-- Witness of C6: records 0 (alive) and 1 (dead), one dead entity counted, empty queue. -/
theorem get_entity_linear_scan_witness :
    get_entity { world_t.create with
        entities := [⟨true, 0, 5⟩, ⟨false, 1, 3⟩], dead_entities := 1, next_id := 2 } =
      some (⟨false, 1, 0⟩, { world_t.create with
        entities := [⟨true, 0, 5⟩, ⟨false, 1, 0⟩], dead_entities := 0, next_id := 2 }) ∧
    ∃ i e r w', get_entity { world_t.create with
        entities := [⟨true, 0, 5⟩, ⟨false, 1, 3⟩], dead_entities := 1, next_id := 2 } =
          some (r, w') ∧
      ([⟨true, 0, 5⟩, ⟨false, 1, 3⟩] : List entity_t)[i]? = some e ∧ e.alive = false ∧
      (∀ (j : Nat) (x : entity_t), j < i →
        ([⟨true, 0, 5⟩, ⟨false, 1, 3⟩] : List entity_t)[j]? = some x → x.alive = true) ∧
      r = { e with mask := 0 } ∧
      w'.entities[i]? = some { e with mask := 0 } ∧
      (∀ j : Nat, j ≠ i →
        w'.entities[j]? = ([⟨true, 0, 5⟩, ⟨false, 1, 3⟩] : List entity_t)[j]?) ∧
      w'.entities.length = 2 ∧
      w'.dead_entities + 1 = 1 ∧
      w'.next_id = 2 ∧
      w'.queue_entities = [] ∧
      w'.rm_queue_entities = [] ∧
      w'.queue_systems = [] ∧
      w'.rm_queue_systems = [] ∧
      w'.systems = [] :=
  ⟨by decide,
   get_entity_linear_scan
    { world_t.create with
        entities := [⟨true, 0, 5⟩, ⟨false, 1, 3⟩], dead_entities := 1, next_id := 2 }
    (by decide) rfl ⟨⟨false, 1, 3⟩, by decide, rfl⟩⟩

/-! ## Kill -/

/-- C9 (amended): `kill(e)` (with `dead_entities` a 32-bit value) increases `dead_entities`
by exactly 1 unless it is `2 ^ 32 - 1`, in which case it wraps to 0, appends `e.id` to the
end of the removal queue, and leaves the entity sequence, the addition queue, both system
queues, the system collection and `next_id` unchanged. -/
theorem kill_frame (w : world_t) (e : entity_t) (hd : w.dead_entities < 2 ^ 32) :
    (kill w e).dead_entities =
      (if w.dead_entities = 2 ^ 32 - 1 then 0 else w.dead_entities + 1) ∧
    (kill w e).rm_queue_entities = w.rm_queue_entities ++ [e.id] ∧
    (kill w e).entities = w.entities ∧
    (kill w e).queue_entities = w.queue_entities ∧
    (kill w e).queue_systems = w.queue_systems ∧
    (kill w e).rm_queue_systems = w.rm_queue_systems ∧
    (kill w e).systems = w.systems ∧
    (kill w e).next_id = w.next_id := by
  refine ⟨?_, rfl, rfl, rfl, rfl, rfl, rfl, rfl⟩
  show (w.dead_entities + 1) % 2 ^ 32 = _
  by_cases hmax : w.dead_entities = 2 ^ 32 - 1
  · rw [if_pos hmax, hmax]
    rfl
  · rw [if_neg hmax]
    exact Nat.mod_eq_of_lt (by omega)

/-- Witness of C9 (amended): killing entity 1 of `world_two_alive`. -/
theorem kill_frame_witness :
    world_two_alive.dead_entities < 2 ^ 32 ∧
    kill world_two_alive ⟨true, 1, 0⟩ =
      { world_two_alive with dead_entities := 1, rm_queue_entities := [1] } ∧
    (kill world_two_alive ⟨true, 1, 0⟩).dead_entities =
      (if world_two_alive.dead_entities = 2 ^ 32 - 1 then 0
        else world_two_alive.dead_entities + 1) ∧
    (kill world_two_alive ⟨true, 1, 0⟩).rm_queue_entities =
      world_two_alive.rm_queue_entities ++ [(⟨true, 1, 0⟩ : entity_t).id] ∧
    (kill world_two_alive ⟨true, 1, 0⟩).entities = world_two_alive.entities ∧
    (kill world_two_alive ⟨true, 1, 0⟩).queue_entities = world_two_alive.queue_entities ∧
    (kill world_two_alive ⟨true, 1, 0⟩).queue_systems = world_two_alive.queue_systems ∧
    (kill world_two_alive ⟨true, 1, 0⟩).rm_queue_systems =
      world_two_alive.rm_queue_systems ∧
    (kill world_two_alive ⟨true, 1, 0⟩).systems = world_two_alive.systems ∧
    (kill world_two_alive ⟨true, 1, 0⟩).next_id = world_two_alive.next_id :=
  ⟨by decide, by decide, kill_frame world_two_alive ⟨true, 1, 0⟩ (by decide)⟩

/-- Every value from 1 on of the 32-bit counter `dead_entities` is reached from the empty
world: one entity is allocated, registered and activated, and then killed and refreshed
again and again. -/
theorem reachable_dead_count (n : Nat) (hn : n + 1 < 2 ^ 32) :
    Reachable { world_t.create with
      entities := [⟨false, 0, 0⟩], dead_entities := n + 1, next_id := 1 } := by
  induction n with
  | zero =>
    have h1 : Reachable { world_t.create with next_id := 1 } :=
      Reachable.allocate Reachable.start
        (show get_entity world_t.create = some (⟨false, 0, 0⟩, _) from rfl)
    have h2 : Reachable { world_t.create with
        entities := [⟨false, 0, 0⟩], queue_entities := [0], next_id := 1 } :=
      Reachable.register ⟨false, 0, 0⟩ h1 (by decide)
    have h3 : Reachable { world_t.create with entities := [⟨true, 0, 0⟩], next_id := 1 } :=
      Reachable.refreshed h2
        (show refresh default_heap _ = some (default_heap, _, []) from rfl)
    have h4 := Reachable.killed ⟨true, 0, 0⟩ h3
    exact Reachable.refreshed h4
      (show refresh default_heap _ = some (default_heap, _, []) from rfl)
  | succ k ih =>
    have hk := ih (by omega)
    have h1 := Reachable.killed ⟨false, 0, 0⟩ hk
    have hlt : k + 1 + 1 < 4294967296 := by omega
    have hkill : kill { world_t.create with
          entities := [⟨false, 0, 0⟩], dead_entities := k + 1, next_id := 1 }
        ⟨false, 0, 0⟩ =
        { world_t.create with
          entities := [⟨false, 0, 0⟩], rm_queue_entities := [0],
          dead_entities := k + 1 + 1, next_id := 1 } := by
      simp [kill, world_t.create, Nat.mod_eq_of_lt hlt]
    rw [hkill] at h1
    exact Reachable.refreshed h1
      (show refresh default_heap _ = some (default_heap, _, []) from rfl)

/-- C9 (counterexample): the world reached by killing and refreshing one entity
`2 ^ 32 - 1` times has `dead_entities == 4294967295`; one more `kill` leaves
`dead_entities` at 0, not at 4294967296. -/
theorem kill_wraps_dead_entities :
    Reachable { world_t.create with
      entities := [⟨false, 0, 0⟩], dead_entities := 4294967295, next_id := 1 } ∧
    (kill { world_t.create with
      entities := [⟨false, 0, 0⟩], dead_entities := 4294967295, next_id := 1 }
      ⟨false, 0, 0⟩).dead_entities = 0 ∧
    (0 : Nat) ≠ 4294967295 + 1 :=
  ⟨reachable_dead_count 4294967294 (by decide), by decide, by decide⟩

/-! ## Refresh: the entity phases -/

/-- What an entity phase of `refresh` does to the sequence when it runs through: the length
is kept and exactly the records at queued indices get the flag. -/
theorem refresh_entities_of_some (h : heap_t) (systems : List Nat) (flag : Bool)
    (hook : Nat → Nat → event) :
    ∀ (q : List Nat) (es es' : List entity_t) (tr : List event),
      refresh_entities h systems flag hook q es = some (es', tr) →
      es'.length = es.length ∧
      ∀ i : Nat, es'[i]? =
        (es[i]?).map (fun e => if i ∈ q then { e with alive := flag } else e) := by
  intro q
  induction q with
  | nil =>
    intro es es' tr hr
    simp only [refresh_entities, Option.some.injEq, Prod.mk.injEq] at hr
    obtain ⟨rfl, -⟩ := hr
    refine ⟨rfl, fun i => ?_⟩
    cases es[i]? <;> simp
  | cons id q ih =>
    intro es es' tr hr
    unfold refresh_entities at hr
    cases hid : es[id]? with
    | none => simp [hid] at hr
    | some e =>
      simp only [hid] at hr
      cases hrec : refresh_entities h systems flag hook q
          (es.set id { e with alive := flag }) with
      | none => simp [hrec] at hr
      | some r =>
        obtain ⟨es1, tr1⟩ := r
        simp only [hrec, Option.some.injEq, Prod.mk.injEq] at hr
        obtain ⟨rfl, -⟩ := hr
        obtain ⟨hlen, hget⟩ := ih _ _ _ hrec
        have hlt : id < es.length := (List.getElem?_eq_some.1 hid).1
        refine ⟨by simpa using hlen, fun i => ?_⟩
        rw [hget i, List.getElem?_set]
        by_cases hi : id = i
        · subst hi
          simp [hlt, hid]
        · have hi' : ¬ i = id := fun hh => hi hh.symm
          simp [hi, hi']

/-- An entity phase of `refresh` runs through when every queued id is a valid index. -/
theorem refresh_entities_isSome (h : heap_t) (systems : List Nat) (flag : Bool)
    (hook : Nat → Nat → event) :
    ∀ (q : List Nat) (es : List entity_t), valid_ids q es →
      ∃ es' tr, refresh_entities h systems flag hook q es = some (es', tr) := by
  intro q
  induction q with
  | nil => intro es _; exact ⟨es, [], rfl⟩
  | cons id q ih =>
    intro es hv
    have hlt : id < es.length := hv id (List.mem_cons_self id q)
    have hv' : valid_ids q (es.set id { es[id] with alive := flag }) := by
      intro x hx
      simpa using hv x (List.mem_cons_of_mem id hx)
    obtain ⟨es', tr, hr⟩ := ih _ hv'
    refine ⟨es', notify h systems es[id].mask (fun s => hook s id) ++ tr, ?_⟩
    simp [refresh_entities, List.getElem?_eq_getElem hlt, hr]

/-- An entity phase of `refresh` that runs through had only valid indices queued. -/
theorem refresh_entities_valid (h : heap_t) (systems : List Nat) (flag : Bool)
    (hook : Nat → Nat → event) :
    ∀ (q : List Nat) (es es' : List entity_t) (tr : List event),
      refresh_entities h systems flag hook q es = some (es', tr) → valid_ids q es := by
  intro q
  induction q with
  | nil => intro es es' tr _ x hx; simp at hx
  | cons id q ih =>
    intro es es' tr hr
    unfold refresh_entities at hr
    cases hid : es[id]? with
    | none => simp [hid] at hr
    | some e =>
      simp only [hid] at hr
      cases hrec : refresh_entities h systems flag hook q
          (es.set id { e with alive := flag }) with
      | none => simp [hrec] at hr
      | some r =>
        have hv := ih _ _ _ hrec
        have hlt : id < es.length := (List.getElem?_eq_some.1 hid).1
        intro x hx
        rcases List.mem_cons.1 hx with rfl | hmem
        · exact hlt
        · simpa using hv x hmem

/-- The shape of a `refresh` that runs through: counters kept, all four queues cleared,
length of the entity sequence kept, and each record flagged by the last phase that names
its index. -/
theorem refresh_of_some (h h' : heap_t) (w w' : world_t) (tr : List event)
    (hr : refresh h w = some (h', w', tr)) :
    w'.dead_entities = w.dead_entities ∧ w'.next_id = w.next_id ∧
    w'.queue_entities = [] ∧ w'.rm_queue_entities = [] ∧
    w'.queue_systems = [] ∧ w'.rm_queue_systems = [] ∧
    w'.entities.length = w.entities.length ∧
    ∀ i : Nat, w'.entities[i]? = (w.entities[i]?).map (fun e =>
      if i ∈ w.queue_entities then { e with alive := true }
      else if i ∈ w.rm_queue_entities then { e with alive := false } else e) := by
  unfold refresh at hr
  simp only at hr
  split at hr
  · simp at hr
  · rename_i es3 tr3 h3
    split at hr
    · simp at hr
    · rename_i es4 tr4 h4
      simp only [Option.some.injEq, Prod.mk.injEq] at hr
      obtain ⟨-, rfl, -⟩ := hr
      obtain ⟨hl3, hg3⟩ := refresh_entities_of_some _ _ _ _ _ _ _ _ h3
      obtain ⟨hl4, hg4⟩ := refresh_entities_of_some _ _ _ _ _ _ _ _ h4
      refine ⟨rfl, rfl, rfl, rfl, rfl, rfl, by simpa [hl3] using hl4, fun i => ?_⟩
      show es4[i]? = _
      rw [hg4 i, hg3 i]
      cases w.entities[i]? with
      | none => rfl
      | some e =>
        by_cases ha : i ∈ w.queue_entities <;> by_cases hb : i ∈ w.rm_queue_entities <;>
          simp [ha, hb]

/-- The `refresh` call runs through when the ids in both entity queues are valid indices. -/
theorem refresh_isSome (h : heap_t) (w : world_t)
    (hrm : valid_ids w.rm_queue_entities w.entities)
    (hadd : valid_ids w.queue_entities w.entities) :
    ∃ h' w' tr, refresh h w = some (h', w', tr) := by
  obtain ⟨es3, tr3, h3⟩ := refresh_entities_isSome
    (refresh_add_systems (refresh_rm_systems h w.systems w.rm_queue_systems).1
      (refresh_rm_systems h w.systems w.rm_queue_systems).2.1 w.queue_systems).1
    (refresh_add_systems (refresh_rm_systems h w.systems w.rm_queue_systems).1
      (refresh_rm_systems h w.systems w.rm_queue_systems).2.1 w.queue_systems).2.1
    false event.on_remove_entity w.rm_queue_entities w.entities hrm
  have hl3 := (refresh_entities_of_some _ _ _ _ _ _ _ _ h3).1
  have hadd3 : valid_ids w.queue_entities es3 := by
    intro x hx
    rw [hl3]
    exact hadd x hx
  obtain ⟨es4, tr4, h4⟩ := refresh_entities_isSome
    (refresh_add_systems (refresh_rm_systems h w.systems w.rm_queue_systems).1
      (refresh_rm_systems h w.systems w.rm_queue_systems).2.1 w.queue_systems).1
    (refresh_add_systems (refresh_rm_systems h w.systems w.rm_queue_systems).1
      (refresh_rm_systems h w.systems w.rm_queue_systems).2.1 w.queue_systems).2.1
    true event.on_add_entity w.queue_entities es3 hadd3
  simp only [refresh, h3, h4]
  exact ⟨_, _, _, rfl⟩

/-- C10: when every queued id is a valid index, `refresh` runs through; afterwards both
entity queues are empty; the record at an index that was in the addition queue is alive;
the record at an index that was in the removal queue but not in the addition queue is not
alive; every other record keeps its flag; and no record's `id` or `mask`, nor the length of
the sequence, `next_id` or `dead_entities` changes. (Records are located by index, which is
how `refresh` reads a queued id: `entities[id]`.) -/
theorem refresh_entity_postcondition (h : heap_t) (w : world_t)
    (hrm : valid_ids w.rm_queue_entities w.entities)
    (hadd : valid_ids w.queue_entities w.entities) :
    ∃ h' w' tr, refresh h w = some (h', w', tr) ∧
      w'.queue_entities = [] ∧ w'.rm_queue_entities = [] ∧
      w'.entities.length = w.entities.length ∧
      w'.next_id = w.next_id ∧ w'.dead_entities = w.dead_entities ∧
      ∀ (i : Nat) (e : entity_t), w.entities[i]? = some e →
        ∃ e', w'.entities[i]? = some e' ∧ e'.id = e.id ∧ e'.mask = e.mask ∧
          (i ∈ w.queue_entities → e'.alive = true) ∧
          (i ∈ w.rm_queue_entities → i ∉ w.queue_entities → e'.alive = false) ∧
          (i ∉ w.rm_queue_entities → i ∉ w.queue_entities → e'.alive = e.alive) := by
  obtain ⟨h', w', tr, hr⟩ := refresh_isSome h w hrm hadd
  obtain ⟨hd, hn, hq, hrq, -, -, hlen, hget⟩ := refresh_of_some h h' w w' tr hr
  refine ⟨h', w', tr, hr, hq, hrq, hlen, hn, hd, fun i e hie => ?_⟩
  rw [hget i, hie]
  by_cases ha : i ∈ w.queue_entities <;> by_cases hb : i ∈ w.rm_queue_entities <;>
    simp [ha, hb]

/-- Witness of C10: three records, indices 0 and 1 queued for removal, index 1 also queued
for addition. -/
theorem refresh_entity_postcondition_witness :
    valid_ids [0, 1] [⟨true, 0, 1⟩, ⟨false, 1, 2⟩, ⟨true, 2, 0⟩] ∧
    valid_ids [1] [⟨true, 0, 1⟩, ⟨false, 1, 2⟩, ⟨true, 2, 0⟩] ∧
    ∃ h' w' tr, refresh default_heap { world_t.create with
        entities := [⟨true, 0, 1⟩, ⟨false, 1, 2⟩, ⟨true, 2, 0⟩],
        rm_queue_entities := [0, 1], queue_entities := [1], next_id := 3 } =
          some (h', w', tr) ∧
      w'.queue_entities = [] ∧ w'.rm_queue_entities = [] ∧
      w'.entities.length = 3 ∧
      w'.next_id = 3 ∧ w'.dead_entities = 0 ∧
      ∀ (i : Nat) (e : entity_t),
        ([⟨true, 0, 1⟩, ⟨false, 1, 2⟩, ⟨true, 2, 0⟩] : List entity_t)[i]? = some e →
        ∃ e', w'.entities[i]? = some e' ∧ e'.id = e.id ∧ e'.mask = e.mask ∧
          (i ∈ [1] → e'.alive = true) ∧
          (i ∈ [0, 1] → i ∉ [1] → e'.alive = false) ∧
          (i ∉ [0, 1] → i ∉ [1] → e'.alive = e.alive) :=
  ⟨by decide, by decide,
   refresh_entity_postcondition default_heap
    { world_t.create with
        entities := [⟨true, 0, 1⟩, ⟨false, 1, 2⟩, ⟨true, 2, 0⟩],
        rm_queue_entities := [0, 1], queue_entities := [1], next_id := 3 }
    (by decide) (by decide)⟩

/-! ## Register -/

/-- Registering an entity whose id is a valid index overwrites that slot. -/
theorem add_of_lt (w : world_t) (e : entity_t) (hlt : e.id < w.entities.length) :
    add w e = some { w with
      entities := w.entities.set e.id e,
      queue_entities := w.queue_entities ++ [e.id] } := by
  have hn : ¬ w.entities.length ≤ e.id := by omega
  simp [add, hn, hlt]

/-- Registering an entity whose id is the current length appends it. -/
theorem add_of_eq (w : world_t) (e : entity_t) (heq : e.id = w.entities.length) :
    add w e = some { w with
      entities := w.entities ++ [e],
      queue_entities := w.queue_entities ++ [e.id] } := by
  simp [add, heq]

/-- Registering an entity whose id is beyond the current length writes out of range: the
single `push_back` makes the sequence one longer, which does not reach `entity.id`. -/
theorem add_of_gt (w : world_t) (e : entity_t) (hgt : w.entities.length < e.id) :
    add w e = none := by
  have hle : w.entities.length ≤ e.id := by omega
  have hn : ¬ e.id < w.entities.length + 1 := by omega
  simp [add, hle, hn]

/-- C7 (failing input): on a world with no stored record, registering an entity with id 1
(the second of two allocated entities, registered first) pushes one record and then writes
`entities[1]` of a sequence of length 1, an out-of-range access. -/
theorem add_out_of_range_on_gap :
    add world_t.create ⟨false, 1, 0⟩ = none ∧
    (world_t.create.entities ++ [(⟨false, 1, 0⟩ : entity_t)]).length = 1 ∧
    ((get_entity world_t.create).bind (fun p => get_entity p.2)).map (fun p => p.1) =
      some ⟨false, 1, 0⟩ ∧
    run default_heap world_t.create [op.allocate, op.allocate, op.register ⟨false, 1, 0⟩] =
      none := by
  decide

/-- C8 (counterexample): in the reachable world where record 0 is stored alive, registering
the handle `(alive = false, id = 0)` that `get_entity` returned for it, whose id is a valid
index, leaves record 0 stored with `alive == false`. -/
theorem add_overwrites_alive_flag :
    run default_heap world_t.create [op.allocate, op.register ⟨false, 0, 0⟩, op.refresh] =
      some world_one_alive ∧
    (⟨false, 0, 0⟩ : entity_t).id < world_one_alive.entities.length ∧
    world_one_alive.entities.map entity_t.alive = [true] ∧
    (add world_one_alive ⟨false, 0, 0⟩).map
        (fun w' => w'.entities.map entity_t.alive) = some [false] := by
  decide

/-- C8 (amended): for an entity `e` whose id is a valid index, `add` runs through, keeps the
length, leaves every record at an index other than `e.id` as it was (its `alive` flag in
particular), and stores `e` itself at index `e.id`, so that slot carries `e.alive`
afterwards: its flag is unchanged exactly when `e.alive` equals the flag stored before. -/
theorem add_alive_frame (w : world_t) (e : entity_t) (hlt : e.id < w.entities.length) :
    ∃ w', add w e = some w' ∧
      w'.entities.length = w.entities.length ∧
      (∀ (j : Nat) (x : entity_t), j ≠ e.id → w.entities[j]? = some x →
        ∃ x', w'.entities[j]? = some x' ∧ x'.alive = x.alive) ∧
      (∀ j : Nat, j ≠ e.id → w'.entities[j]? = w.entities[j]?) ∧
      w'.entities[e.id]? = some e ∧
      (∀ x : entity_t, w.entities[e.id]? = some x →
        ∃ x', w'.entities[e.id]? = some x' ∧ (x'.alive = x.alive ↔ e.alive = x.alive)) := by
  refine ⟨_, add_of_lt w e hlt, by simp, ?_, ?_, by simp [List.getElem?_set, hlt], ?_⟩
  · intro j x hj hx
    refine ⟨x, ?_, rfl⟩
    simp [List.getElem?_set, Ne.symm hj, hx]
  · intro j hj
    simp [List.getElem?_set, Ne.symm hj]
  · intro x _
    exact ⟨e, by simp [List.getElem?_set, hlt], Iff.rfl⟩

/-- Witness of C8 (amended): two stored records, the handle registered has id 1. -/
theorem add_alive_frame_witness :
    ((⟨false, 1, 7⟩ : entity_t).id <
      ({ world_t.create with entities := [⟨true, 0, 0⟩, ⟨true, 1, 0⟩], next_id := 2 } :
        world_t).entities.length) ∧
    ∃ w', add { world_t.create with entities := [⟨true, 0, 0⟩, ⟨true, 1, 0⟩], next_id := 2 }
        ⟨false, 1, 7⟩ = some w' ∧
      w'.entities.length = 2 ∧
      (∀ (j : Nat) (x : entity_t), j ≠ 1 →
        ([⟨true, 0, 0⟩, ⟨true, 1, 0⟩] : List entity_t)[j]? = some x →
        ∃ x', w'.entities[j]? = some x' ∧ x'.alive = x.alive) ∧
      (∀ j : Nat, j ≠ 1 →
        w'.entities[j]? = ([⟨true, 0, 0⟩, ⟨true, 1, 0⟩] : List entity_t)[j]?) ∧
      w'.entities[1]? = some ⟨false, 1, 7⟩ ∧
      (∀ x : entity_t, ([⟨true, 0, 0⟩, ⟨true, 1, 0⟩] : List entity_t)[1]? = some x →
        ∃ x', w'.entities[1]? = some x' ∧ (x'.alive = x.alive ↔ false = x.alive)) :=
  ⟨by decide,
   add_alive_frame
    { world_t.create with entities := [⟨true, 0, 0⟩, ⟨true, 1, 0⟩], next_id := 2 }
    ⟨false, 1, 7⟩ (by decide)⟩

/-- C5 (failing input): records 0 and 1 are stored and were killed in this order, so the
removal queue is `[0, 1]`. `get_entity` erases the entry 0 but resets and returns record 1,
whose id stays queued. -/
theorem get_entity_queue_returns_next_entry :
    run default_heap world_t.create
      [op.allocate, op.register ⟨false, 0, 3⟩, op.allocate, op.register ⟨false, 1, 5⟩,
        op.refresh, op.kill ⟨true, 0, 3⟩, op.kill ⟨true, 1, 5⟩] = some world_two_killed ∧
    world_two_killed.rm_queue_entities = [0, 1] ∧
    get_entity world_two_killed =
      some (⟨true, 1, 0⟩, { world_t.create with
        entities := [⟨true, 0, 3⟩, ⟨true, 1, 0⟩],
        rm_queue_entities := [1], dead_entities := 1, next_id := 2 }) := by
  decide

/-! ## Invariants of reachable worlds -/

/-- Overwriting slot `i` with a record whose id is `i` keeps the ids equal to the indices. -/
theorem ids_are_indices_set (es : List entity_t) (i : Nat) (a : entity_t)
    (hes : ids_are_indices es) (ha : a.id = i) : ids_are_indices (es.set i a) := by
  intro j x hj
  rw [List.getElem?_set] at hj
  by_cases hij : i = j
  · subst hij
    by_cases hlt : i < es.length
    · simp [hlt] at hj
      subst hj
      exact ha
    · simp [hlt] at hj
  · simp only [hij, if_false] at hj
    exact hes j x hj

/-- Appending a record whose id is the current length keeps the ids equal to the indices. -/
theorem ids_are_indices_append (es : List entity_t) (a : entity_t)
    (hes : ids_are_indices es) (ha : a.id = es.length) : ids_are_indices (es ++ [a]) := by
  intro j x hj
  by_cases hlt : j < es.length
  · rw [List.getElem?_append_left hlt] at hj
    exact hes j x hj
  · rw [List.getElem?_append_right (by omega)] at hj
    by_cases h0 : j - es.length = 0
    · rw [h0] at hj
      simp at hj
      subst hj
      omega
    · obtain ⟨k, hk⟩ := Nat.exists_eq_succ_of_ne_zero h0
      rw [hk] at hj
      simp at hj

/-- A stored record of a sequence whose ids are the indices has a valid id. -/
theorem id_lt_length_of_mem (es : List entity_t) (x : entity_t)
    (hes : ids_are_indices es) (hx : x ∈ es) : x.id < es.length := by
  obtain ⟨n, hn⟩ := List.mem_iff_getElem?.1 hx
  have hid := hes n x hn
  have hlt := (List.getElem?_eq_some.1 hn).1
  omega

/-- A successful scan returns the dead record it found, mask reset, and has reset the mask
of that slot. -/
theorem scan_dead_of_some (es es' : List entity_t) (r : entity_t)
    (hs : scan_dead es = some (r, es')) :
    ∃ i e, es[i]? = some e ∧ e.alive = false ∧ r = { e with mask := 0 } ∧
      es' = es.set i { e with mask := 0 } := by
  by_cases hx : ∃ e ∈ es, e.alive = false
  · obtain ⟨i, e, h1, h2, -, h4⟩ := scan_dead_some es hx
    rw [h4] at hs
    simp only [Option.some.injEq, Prod.mk.injEq] at hs
    exact ⟨i, e, h1, h2, hs.1.symm, hs.2.symm⟩
  · have hall : ∀ e ∈ es, e.alive = true := by
      intro e he
      by_contra hne
      exact hx ⟨e, he, by simpa using hne⟩
    rw [scan_dead_none es hall] at hs
    simp at hs

/-- The `get_entity` call never changes the length of the sequence, the addition queue or
the id stored in a slot. -/
theorem get_entity_preserves (w w' : world_t) (e : entity_t)
    (hg : get_entity w = some (e, w')) (hes : ids_are_indices w.entities) :
    ids_are_indices w'.entities ∧ w'.entities.length = w.entities.length ∧
      w'.queue_entities = w.queue_entities := by
  unfold get_entity at hg
  split at hg
  · simp only [_spawn_entity, Option.some.injEq, Prod.mk.injEq] at hg
    obtain ⟨-, rfl⟩ := hg
    exact ⟨hes, rfl, rfl⟩
  · split at hg
    · simp at hg
    · rename_i q r rest hq
      split at hg
      · simp at hg
      · rename_i e0 he0
        simp only [Option.some.injEq, Prod.mk.injEq] at hg
        obtain ⟨-, rfl⟩ := hg
        exact ⟨ids_are_indices_set _ _ { e0 with mask := 0 } hes (hes _ e0 he0), by simp, rfl⟩
    · split at hg
      · rename_i r es hs
        simp only [Option.some.injEq, Prod.mk.injEq] at hg
        obtain ⟨-, rfl⟩ := hg
        obtain ⟨i, e0, h1, -, -, rfl⟩ := scan_dead_of_some _ _ _ hs
        exact ⟨ids_are_indices_set _ _ { e0 with mask := 0 } hes (hes _ e0 h1), by simp, rfl⟩
      · simp only [_spawn_entity, Option.some.injEq, Prod.mk.injEq] at hg
        obtain ⟨-, rfl⟩ := hg
        exact ⟨hes, rfl, rfl⟩

/-- A successful `add` keeps the ids equal to the indices and the addition queue valid. -/
theorem add_preserves (w w' : world_t) (e : entity_t) (ha : add w e = some w')
    (hes : ids_are_indices w.entities) (hq : valid_ids w.queue_entities w.entities) :
    ids_are_indices w'.entities ∧ valid_ids w'.queue_entities w'.entities ∧
      w.entities.length ≤ w'.entities.length := by
  rcases Nat.lt_trichotomy e.id w.entities.length with hlt | heq | hgt
  · rw [add_of_lt w e hlt] at ha
    simp only [Option.some.injEq] at ha
    subst ha
    refine ⟨ids_are_indices_set _ _ _ hes rfl, ?_, by simp⟩
    intro x hx
    simp only [List.mem_append, List.mem_singleton] at hx
    rcases hx with hx | rfl
    · simpa using hq x hx
    · simpa using hlt
  · rw [add_of_eq w e heq] at ha
    simp only [Option.some.injEq] at ha
    subst ha
    refine ⟨ids_are_indices_append _ _ hes heq, ?_, by simp⟩
    intro x hx
    simp only [List.mem_append, List.mem_singleton] at hx
    rcases hx with hx | rfl
    · have := hq x hx
      simp
      omega
    · simp
      omega
  · rw [add_of_gt w e hgt] at ha
    simp at ha

/-- In every reachable world each stored record sits at the index given by its id, and every
id in the addition queue is a valid index. -/
theorem reachable_invariant (w : world_t) (hw : Reachable w) :
    ids_are_indices w.entities ∧ valid_ids w.queue_entities w.entities := by
  induction hw with
  | start =>
    refine ⟨?_, ?_⟩
    · intro i e hi
      simp [world_t.create] at hi
    · intro x hx
      simp [world_t.create] at hx
  | allocate _ hg ih =>
    obtain ⟨h1, h2, h3⟩ := get_entity_preserves _ _ _ hg ih.1
    refine ⟨h1, ?_⟩
    intro x hx
    rw [h3] at hx
    rw [h2]
    exact ih.2 x hx
  | register e _ ha ih =>
    obtain ⟨h1, h2, -⟩ := add_preserves _ _ e ha ih.1 ih.2
    exact ⟨h1, h2⟩
  | killed e _ ih => exact ih
  | refreshed _ hr ih =>
    obtain ⟨-, -, hq, -, -, -, hlen, hget⟩ := refresh_of_some _ _ _ _ _ hr
    refine ⟨?_, ?_⟩
    · intro i x hx
      rw [hget i] at hx
      obtain ⟨y, hwi, hy⟩ := Option.map_eq_some'.1 hx
      have hyi := ih.1 i y hwi
      subst hy
      split
      · exact hyi
      · split
        · exact hyi
        · exact hyi
    · intro x hx
      rw [hq] at hx
      simp at hx

/-- Whatever a sequence of calls produces from a reachable world is reachable. -/
theorem reachable_of_run (h : heap_t) :
    ∀ (os : List op) (w0 w : world_t), Reachable w0 → run h w0 os = some w → Reachable w := by
  intro os
  induction os with
  | nil =>
    intro w0 w hw hr
    simp only [run, Option.some.injEq] at hr
    exact hr ▸ hw
  | cons o os ih =>
    intro w0 w hw hr
    unfold run at hr
    cases hs : step h w0 o with
    | none => simp [hs] at hr
    | some w1 =>
      simp only [hs] at hr
      refine ih w1 w ?_ hr
      cases o with
      | allocate =>
        simp only [step] at hs
        obtain ⟨r, hg, hr1⟩ := Option.map_eq_some'.1 hs
        subst hr1
        exact Reachable.allocate hw hg
      | register e => exact Reachable.register e hw hs
      | kill e =>
        simp only [step, Option.some.injEq] at hs
        exact hs ▸ Reachable.killed e hw
      | refresh =>
        simp only [step] at hs
        obtain ⟨r, hg, hr1⟩ := Option.map_eq_some'.1 hs
        subst hr1
        exact Reachable.refreshed hw hg

/-- The world with two alive entities is reachable: allocate and register twice, refresh. -/
theorem reachable_world_two_alive : Reachable world_two_alive :=
  reachable_of_run default_heap
    [op.allocate, op.register ⟨false, 0, 0⟩, op.allocate, op.register ⟨false, 1, 0⟩,
      op.refresh]
    world_t.create world_two_alive Reachable.start (by decide)

/-- The world with entity 0 dead and entity 1 alive is reachable: from `world_two_alive`,
kill entity 0 and refresh. -/
theorem reachable_world_one_dead : Reachable world_one_dead :=
  reachable_of_run default_heap [op.kill ⟨true, 0, 0⟩, op.refresh]
    world_two_alive world_one_dead reachable_world_two_alive (by decide)

/-! ## Recycling -/

/-- C2 (counterexample): in the reachable world where record 0 is dead and unclaimed and
record 1 is alive, kill entity 1, refresh, allocate: the entity returned has id 0, not 1. -/
theorem kill_refresh_allocate_returns_earlier_dead :
    Reachable world_one_dead ∧
    world_one_dead.entities[1]? = some ⟨true, 1, 0⟩ ∧
    (((refresh default_heap (kill world_one_dead ⟨true, 1, 0⟩)).bind
        (fun r => get_entity r.2.1)).map (fun p => p.1.id)) = some 0 :=
  ⟨reachable_world_one_dead, by decide, by decide⟩

/-- C2 (amended): in a reachable world whose removal queue holds only valid indices, with
`dead_entities + 1 < 2 ^ 32`, let `X` be a stored entity whose id is not pending in the
addition queue. Then `kill(X)` and `refresh()` run through and the next `get_entity` returns
the first record with `alive == false` (mask reset), decrementing `dead_entities` by one.
The id returned is at most `X.id`, and it is `X.id` when every record before `X` is alive. -/
theorem kill_refresh_allocate_first_dead (w : world_t) (hw : Reachable w) (X : entity_t)
    (hX : X ∈ w.entities) (hrm : valid_ids w.rm_queue_entities w.entities)
    (hpend : X.id ∉ w.queue_entities) (hdead : w.dead_entities + 1 < 2 ^ 32) (h : heap_t) :
    ∃ h' w2 tr e w3, refresh h (kill w X) = some (h', w2, tr) ∧
      get_entity w2 = some (e, w3) ∧
      w3.dead_entities + 1 = w2.dead_entities ∧
      (∃ e0, w2.entities[e.id]? = some e0 ∧ e0.alive = false ∧ e = { e0 with mask := 0 }) ∧
      (∀ (j : Nat) (x : entity_t), j < e.id → w2.entities[j]? = some x → x.alive = true) ∧
      e.id ≤ X.id ∧
      ((∀ (j : Nat) (x : entity_t), j < X.id → w2.entities[j]? = some x → x.alive = true) →
        e.id = X.id) := by
  obtain ⟨hids, hq⟩ := reachable_invariant w hw
  have hXlt : X.id < w.entities.length := id_lt_length_of_mem _ _ hids hX
  have hXget : w.entities[X.id]? = some X := by
    obtain ⟨n, hn⟩ := List.mem_iff_getElem?.1 hX
    have := hids n X hn
    rw [this]
    exact hn
  have hrm' : valid_ids (kill w X).rm_queue_entities (kill w X).entities := by
    intro x hx
    simp only [kill, List.mem_append, List.mem_singleton] at hx
    rcases hx with hx | rfl
    · exact hrm x hx
    · exact hXlt
  obtain ⟨h', w2, tr, hr⟩ := refresh_isSome h (kill w X) hrm' hq
  obtain ⟨hd, -, -, hrq, -, -, -, hget⟩ := refresh_of_some _ _ _ _ _ hr
  have hd2 : w2.dead_entities = w.dead_entities + 1 := by
    rw [hd]
    show (w.dead_entities + 1) % 2 ^ 32 = w.dead_entities + 1
    exact Nat.mod_eq_of_lt hdead
  have hXdead : w2.entities[X.id]? = some { X with alive := false } := by
    rw [hget X.id]
    show Option.map _ w.entities[X.id]? = _
    rw [hXget]
    have h1 : X.id ∉ (kill w X).queue_entities := hpend
    have h2 : X.id ∈ (kill w X).rm_queue_entities := by simp [kill]
    simp [h1, h2]
  have hx : ∃ e ∈ w2.entities, e.alive = false :=
    ⟨_, List.getElem?_mem hXdead, rfl⟩
  obtain ⟨i, e0, h1, h2, h3, hs⟩ := scan_dead_some w2.entities hx
  obtain ⟨r, w3, hg, h4, h5⟩ : ∃ r w3, get_entity w2 = some (r, w3) ∧
      r = { e0 with mask := 0 } ∧ w3.dead_entities + 1 = w2.dead_entities := by
    refine ⟨_, _, get_entity_scan_eq w2 _ _ (by omega) hrq hs, rfl, ?_⟩
    show w2.dead_entities - 1 + 1 = w2.dead_entities
    omega
  have hw2 : Reachable w2 := Reachable.refreshed (Reachable.killed X hw) hr
  have hei : e0.id = i := (reachable_invariant w2 hw2).1 i e0 h1
  have hri : r.id = i := by rw [h4]; exact hei
  refine ⟨h', w2, tr, r, w3, hr, hg, h5, ⟨e0, by rw [hri]; exact h1, h2, h4⟩, ?_, ?_, ?_⟩
  · rw [hri]
    exact h3
  · rw [hri]
    by_contra hlt
    have := h3 X.id _ (by omega) hXdead
    simp at this
  · intro hall
    rw [hri]
    by_contra hne
    have hle : i ≤ X.id := by
      by_contra hlt
      have := h3 X.id _ (by omega) hXdead
      simp at this
    have := hall i e0 (by omega) h1
    rw [h2] at this
    exact Bool.false_ne_true this

/-- Witness of C2 (amended): in `world_two_alive`, kill entity 1, refresh, allocate. -/
theorem kill_refresh_allocate_first_dead_witness :
    Reachable world_two_alive ∧ (⟨true, 1, 0⟩ : entity_t) ∈ world_two_alive.entities ∧
    valid_ids world_two_alive.rm_queue_entities world_two_alive.entities ∧
    (⟨true, 1, 0⟩ : entity_t).id ∉ world_two_alive.queue_entities ∧
    world_two_alive.dead_entities + 1 < 2 ^ 32 ∧
    ∃ h' w2 tr e w3,
      refresh default_heap (kill world_two_alive ⟨true, 1, 0⟩) = some (h', w2, tr) ∧
      get_entity w2 = some (e, w3) ∧
      w3.dead_entities + 1 = w2.dead_entities ∧
      (∃ e0, w2.entities[e.id]? = some e0 ∧ e0.alive = false ∧ e = { e0 with mask := 0 }) ∧
      (∀ (j : Nat) (x : entity_t), j < e.id → w2.entities[j]? = some x → x.alive = true) ∧
      e.id ≤ (⟨true, 1, 0⟩ : entity_t).id ∧
      ((∀ (j : Nat) (x : entity_t), j < (⟨true, 1, 0⟩ : entity_t).id →
          w2.entities[j]? = some x → x.alive = true) →
        e.id = (⟨true, 1, 0⟩ : entity_t).id) :=
  ⟨reachable_world_two_alive, by decide, by decide, by decide, by decide,
   kill_refresh_allocate_first_dead world_two_alive reachable_world_two_alive ⟨true, 1, 0⟩
    (by decide) (by decide) (by decide) (by decide) default_heap⟩

/-- C3 (failing input): entities 0 and 1 are alive; both are killed and a refresh
deactivates them (`dead_entities == 2`). The next two `get_entity` calls both return id 0:
the scan stops at record 0 each time, because handing a record out does not change its
`alive` flag. -/
theorem consecutive_allocations_share_id :
    Reachable world_two_alive ∧
    ((refresh default_heap (kill (kill world_two_alive ⟨true, 0, 0⟩) ⟨true, 1, 0⟩)).bind
      (fun r => (get_entity r.2.1).bind
        (fun p => (get_entity p.2).map
          (fun p' => (p.1.id, p'.1.id, p'.2.dead_entities, p'.2.entities))))) =
      some (0, 0, 0, [⟨false, 0, 0⟩, ⟨false, 1, 0⟩]) :=
  ⟨reachable_world_two_alive, by decide⟩

/-! ## Kill and respawn -/

/-- The removal-queue branch of `get_entity` with a single queued id: after the erase the
iterator is `end()`, and the read of `*it` is out of range. -/
theorem get_entity_single_entry (w : world_t) (q : Nat)
    (hd : w.dead_entities ≠ 0) (hq : w.rm_queue_entities = [q]) :
    get_entity w = none := by
  simp [get_entity, hd, hq]

/-- With an empty removal queue before the kills, as in the example driver, the last respawn
finds a single queued id: `get_entity` erases it and then reads `*it` at `end()`. In
`world_two_alive`, killing both entities and respawning twice does not run through. -/
theorem kill_respawn_last_read_past_end :
    (respawn (kill_all world_two_alive [⟨true, 0, 0⟩, ⟨true, 1, 0⟩]) 9).map
      (fun w => w.rm_queue_entities) = some [1] ∧
    respawn_all (kill_all world_two_alive [⟨true, 0, 0⟩, ⟨true, 1, 0⟩]) [9, 9] = none := by
  decide

/-! ## Refresh: the hook calls -/

/-- The hook is called on exactly the registered systems whose mask the entity's mask
satisfies. -/
theorem notify_mem (h : heap_t) (systems : List Nat) (m : Nat) (hook : Nat → event)
    (e : event) :
    e ∈ notify h systems m hook ↔
      ∃ s, s ∈ systems ∧ m &&& (h s).mask = (h s).mask ∧ hook s = e := by
  simp only [notify, List.mem_map, List.mem_filter, decide_eq_true_eq]
  constructor
  · rintro ⟨s, ⟨h1, h2⟩, h3⟩
    exact ⟨s, h1, h2, h3⟩
  · rintro ⟨s, h1, h2, h3⟩
    exact ⟨s, ⟨h1, h2⟩, h3⟩

/-- The notifications depend on the system objects through their masks only. -/
theorem notify_congr (h1 h2 : heap_t) (systems : List Nat) (m : Nat) (hook : Nat → event)
    (hm : ∀ s, (h1 s).mask = (h2 s).mask) :
    notify h1 systems m hook = notify h2 systems m hook := by
  simp [notify, hm]

/-- The system-removal loop writes nothing but back-references. -/
theorem refresh_rm_systems_heap :
    ∀ (q : List Nat) (h : heap_t) (systems : List Nat) (s : Nat),
      ((refresh_rm_systems h systems q).1 s).mask = (h s).mask ∧
      ((refresh_rm_systems h systems q).1 s).priority = (h s).priority ∧
      ((refresh_rm_systems h systems q).1 s).active = (h s).active := by
  intro q
  induction q with
  | nil => intro h systems s; exact ⟨rfl, rfl, rfl⟩
  | cons a q ih =>
    intro h systems s
    unfold refresh_rm_systems
    by_cases ha : a ∈ systems
    · simp only [ha, if_true]
      obtain ⟨h1, h2, h3⟩ := ih (Function.update h a { h a with world := false })
        (systems.erase a) s
      rw [h1, h2, h3]
      by_cases hs : s = a
      · subst hs
        simp
      · simp [Function.update_noteq hs]
    · simp only [ha, if_false]
      exact ih h systems s

/-- The system-addition loop writes nothing but back-references. -/
theorem refresh_add_systems_heap :
    ∀ (q : List Nat) (h : heap_t) (systems : List Nat) (s : Nat),
      ((refresh_add_systems h systems q).1 s).mask = (h s).mask ∧
      ((refresh_add_systems h systems q).1 s).priority = (h s).priority ∧
      ((refresh_add_systems h systems q).1 s).active = (h s).active := by
  intro q
  induction q with
  | nil => intro h systems s; exact ⟨rfl, rfl, rfl⟩
  | cons a q ih =>
    intro h systems s
    unfold refresh_add_systems
    by_cases ha : a ∈ systems
    · simp only [ha, if_true]
      exact ih h systems s
    · simp only [ha, if_false]
      obtain ⟨h1, h2, h3⟩ := ih (Function.update h a { h a with world := true })
        (systems ++ [a]) s
      rw [h1, h2, h3]
      by_cases hs : s = a
      · subst hs
        simp
      · simp [Function.update_noteq hs]

/-- Writing an `alive` flag leaves the mask found at every index as it was. -/
theorem mask_at_set_alive (es : List entity_t) (id : Nat) (e : entity_t) (flag : Bool)
    (he : es[id]? = some e) (i : Nat) :
    mask_at (es.set id { e with alive := flag }) i = mask_at es i := by
  unfold mask_at
  rw [List.getElem?_set]
  by_cases hi : id = i
  · subst hi
    have hlt : id < es.length := (List.getElem?_eq_some.1 he).1
    simp [hlt, he]
  · simp [hi]

/-- The hook calls of an entity phase: for each queued id in turn, the notifications for the
mask stored at that index. -/
theorem refresh_entities_trace (h : heap_t) (systems : List Nat) (flag : Bool)
    (hook : Nat → Nat → event) :
    ∀ (q : List Nat) (es es' : List entity_t) (tr : List event),
      refresh_entities h systems flag hook q es = some (es', tr) →
      tr = q.flatMap (fun id => notify h systems (mask_at es id) (fun s => hook s id)) ∧
      ∀ i : Nat, mask_at es' i = mask_at es i := by
  intro q
  induction q with
  | nil =>
    intro es es' tr hr
    simp only [refresh_entities, Option.some.injEq, Prod.mk.injEq] at hr
    obtain ⟨rfl, rfl⟩ := hr
    exact ⟨by simp, fun _ => rfl⟩
  | cons id q ih =>
    intro es es' tr hr
    unfold refresh_entities at hr
    cases hid : es[id]? with
    | none => simp [hid] at hr
    | some e =>
      simp only [hid] at hr
      cases hrec : refresh_entities h systems flag hook q
          (es.set id { e with alive := flag }) with
      | none => simp [hrec] at hr
      | some r =>
        obtain ⟨es1, tr1⟩ := r
        simp only [hrec, Option.some.injEq, Prod.mk.injEq] at hr
        obtain ⟨rfl, rfl⟩ := hr
        obtain ⟨htr, hmask⟩ := ih _ _ _ hrec
        have hm : ∀ i, mask_at (es.set id { e with alive := flag }) i = mask_at es i :=
          mask_at_set_alive es id e flag hid
        have he : mask_at es id = e.mask := by simp [mask_at, hid]
        refine ⟨?_, fun i => by rw [hmask i, hm i]⟩
        rw [htr]
        simp only [List.flatMap_cons, he, hm]

/-- The parts of a `refresh` that runs through: the collection left by the two system loops,
and the hook calls of the four loops in the order they are made. The entity notifications
read the masks the records had before the call. -/
theorem refresh_trace (h h' : heap_t) (w w' : world_t) (tr : List event)
    (hr : refresh h w = some (h', w', tr)) :
    w'.systems =
      (refresh_add_systems (refresh_rm_systems h w.systems w.rm_queue_systems).1
        (refresh_rm_systems h w.systems w.rm_queue_systems).2.1 w.queue_systems).2.1 ∧
    h' =
      (refresh_add_systems (refresh_rm_systems h w.systems w.rm_queue_systems).1
        (refresh_rm_systems h w.systems w.rm_queue_systems).2.1 w.queue_systems).1 ∧
    tr = (refresh_rm_systems h w.systems w.rm_queue_systems).2.2 ++
      (refresh_add_systems (refresh_rm_systems h w.systems w.rm_queue_systems).1
        (refresh_rm_systems h w.systems w.rm_queue_systems).2.1 w.queue_systems).2.2 ++
      w.rm_queue_entities.flatMap (fun id =>
        notify h w'.systems (mask_at w.entities id) (fun s => event.on_remove_entity s id)) ++
      w.queue_entities.flatMap (fun id =>
        notify h w'.systems (mask_at w.entities id) (fun s => event.on_add_entity s id)) := by
  unfold refresh at hr
  simp only at hr
  split at hr
  · simp at hr
  · rename_i es3 tr3 h3
    split at hr
    · simp at hr
    · rename_i es4 tr4 h4
      simp only [Option.some.injEq, Prod.mk.injEq] at hr
      obtain ⟨rfl, rfl, rfl⟩ := hr
      obtain ⟨ht3, hm3⟩ := refresh_entities_trace _ _ _ _ _ _ _ _ h3
      obtain ⟨ht4, -⟩ := refresh_entities_trace _ _ _ _ _ _ _ _ h4
      refine ⟨rfl, rfl, ?_⟩
      have hmask : ∀ s,
          ((refresh_add_systems (refresh_rm_systems h w.systems w.rm_queue_systems).1
            (refresh_rm_systems h w.systems w.rm_queue_systems).2.1 w.queue_systems).1 s).mask =
          (h s).mask := by
        intro s
        rw [(refresh_add_systems_heap _ _ _ s).1, (refresh_rm_systems_heap _ _ _ s).1]
      rw [ht3, ht4]
      simp only [hm3, notify_congr _ h _ _ _ hmask]

/-- The system-removal loop only calls the detach hook, on queued systems. -/
theorem refresh_rm_systems_events :
    ∀ (q : List Nat) (h : heap_t) (systems : List Nat) (e : event),
      e ∈ (refresh_rm_systems h systems q).2.2 → ∃ s, s ∈ q ∧ e = event.on_remove_world s := by
  intro q
  induction q with
  | nil => intro h systems e he; simp [refresh_rm_systems] at he
  | cons a q ih =>
    intro h systems e he
    unfold refresh_rm_systems at he
    by_cases ha : a ∈ systems
    · simp only [ha, if_true, List.mem_cons] at he
      rcases he with rfl | he
      · exact ⟨a, List.mem_cons_self a q, rfl⟩
      · obtain ⟨s, hs, rfl⟩ := ih _ _ e he
        exact ⟨s, List.mem_cons_of_mem a hs, rfl⟩
    · simp only [ha, if_false] at he
      obtain ⟨s, hs, rfl⟩ := ih _ _ e he
      exact ⟨s, List.mem_cons_of_mem a hs, rfl⟩

/-- The system-addition loop only calls the attach hook, on queued systems. -/
theorem refresh_add_systems_events :
    ∀ (q : List Nat) (h : heap_t) (systems : List Nat) (e : event),
      e ∈ (refresh_add_systems h systems q).2.2 → ∃ s, s ∈ q ∧ e = event.on_add_world s := by
  intro q
  induction q with
  | nil => intro h systems e he; simp [refresh_add_systems] at he
  | cons a q ih =>
    intro h systems e he
    unfold refresh_add_systems at he
    by_cases ha : a ∈ systems
    · simp only [ha, if_true] at he
      obtain ⟨s, hs, rfl⟩ := ih _ _ e he
      exact ⟨s, List.mem_cons_of_mem a hs, rfl⟩
    · simp only [ha, if_false, List.mem_cons] at he
      rcases he with rfl | he
      · exact ⟨a, List.mem_cons_self a q, rfl⟩
      · obtain ⟨s, hs, rfl⟩ := ih _ _ e he
        exact ⟨s, List.mem_cons_of_mem a hs, rfl⟩

/-- A registered system that is queued for removal gets its detach hook called. -/
theorem refresh_rm_systems_fires (A : Nat) :
    ∀ (q : List Nat) (h : heap_t) (systems : List Nat), A ∈ q → A ∈ systems →
      event.on_remove_world A ∈ (refresh_rm_systems h systems q).2.2 := by
  intro q
  induction q with
  | nil => intro h systems hq; simp at hq
  | cons a q ih =>
    intro h systems hq hs
    unfold refresh_rm_systems
    by_cases haA : a = A
    · subst haA
      simp [hs]
    · have hq' : A ∈ q := by
        rcases List.mem_cons.1 hq with hh | hh
        · exact absurd hh.symm haA
        · exact hh
      by_cases ha : a ∈ systems
      · simp only [ha, if_true, List.mem_cons]
        right
        exact ih _ _ hq' ((List.mem_erase_of_ne (fun hh => haA hh.symm)).2 hs)
      · simp only [ha, if_false]
        exact ih _ _ hq' hs

/-- A system that is not registered and is queued for addition gets its attach hook
called. -/
theorem refresh_add_systems_fires (B : Nat) :
    ∀ (q : List Nat) (h : heap_t) (systems : List Nat), B ∈ q → B ∉ systems →
      event.on_add_world B ∈ (refresh_add_systems h systems q).2.2 := by
  intro q
  induction q with
  | nil => intro h systems hq; simp at hq
  | cons a q ih =>
    intro h systems hq hs
    unfold refresh_add_systems
    by_cases haB : a = B
    · subst haB
      simp [hs]
    · have hq' : B ∈ q := by
        rcases List.mem_cons.1 hq with hh | hh
        · exact absurd hh.symm haB
        · exact hh
      by_cases ha : a ∈ systems
      · simp only [ha, if_true]
        exact ih _ _ hq' hs
      · simp only [ha, if_false, List.mem_cons]
        right
        refine ih _ _ hq' ?_
        simp only [List.mem_append, List.mem_singleton, not_or]
        exact ⟨hs, fun hh => haB hh.symm⟩

/-- The system-removal loop never adds a system to the collection. -/
theorem refresh_rm_systems_subset :
    ∀ (q : List Nat) (h : heap_t) (systems : List Nat) (x : Nat),
      x ∈ (refresh_rm_systems h systems q).2.1 → x ∈ systems := by
  intro q
  induction q with
  | nil => intro h systems x hx; exact hx
  | cons a q ih =>
    intro h systems x hx
    unfold refresh_rm_systems at hx
    by_cases ha : a ∈ systems
    · simp only [ha, if_true] at hx
      exact List.mem_of_mem_erase (ih _ _ x hx)
    · simp only [ha, if_false] at hx
      exact ih _ _ x hx

/-- After the system-addition loop the collection holds what it held before and every
queued system. -/
theorem refresh_add_systems_mem :
    ∀ (q : List Nat) (h : heap_t) (systems : List Nat) (x : Nat),
      x ∈ (refresh_add_systems h systems q).2.1 ↔ x ∈ systems ∨ x ∈ q := by
  intro q
  induction q with
  | nil => intro h systems x; simp [refresh_add_systems]
  | cons a q ih =>
    intro h systems x
    unfold refresh_add_systems
    by_cases ha : a ∈ systems
    · simp only [ha, if_true]
      rw [ih]
      constructor
      · rintro (hx | hx)
        · exact Or.inl hx
        · exact Or.inr (List.mem_cons_of_mem a hx)
      · rintro (hx | hx)
        · exact Or.inl hx
        · rcases List.mem_cons.1 hx with rfl | hx
          · exact Or.inl ha
          · exact Or.inr hx
    · simp only [ha, if_false]
      rw [ih]
      simp only [List.mem_append, List.mem_singleton, List.mem_cons]
      tauto

/-- A queued system that is registered at most once is gone after the system-removal
loop. -/
theorem refresh_rm_systems_removes (x : Nat) :
    ∀ (q : List Nat) (h : heap_t) (systems : List Nat), x ∈ q → systems.count x ≤ 1 →
      x ∉ (refresh_rm_systems h systems q).2.1 := by
  intro q
  induction q with
  | nil => intro h systems hq; simp at hq
  | cons a q ih =>
    intro h systems hq hc
    unfold refresh_rm_systems
    by_cases hax : a = x
    · subst hax
      by_cases ha : a ∈ systems
      · simp only [ha, if_true]
        intro hmem
        have hmem' := refresh_rm_systems_subset _ _ _ _ hmem
        have hcount : (systems.erase a).count a = 0 := by
          rw [List.count_erase_self]
          omega
        exact (List.count_eq_zero.1 hcount) hmem'
      · simp only [ha, if_false]
        intro hmem
        exact ha (refresh_rm_systems_subset _ _ _ _ hmem)
    · have hq' : x ∈ q := by
        rcases List.mem_cons.1 hq with hh | hh
        · exact absurd hh.symm hax
        · exact hh
      by_cases ha : a ∈ systems
      · simp only [ha, if_true]
        refine ih _ _ hq' ?_
        rw [List.count_erase_of_ne (fun hh => hax hh.symm)]
        exact hc
      · simp only [ha, if_false]
        exact ih _ _ hq' hc

/-- A registered system that is not queued for removal stays through the system-removal
loop. -/
theorem refresh_rm_systems_keeps (x : Nat) :
    ∀ (q : List Nat) (h : heap_t) (systems : List Nat), x ∈ systems → x ∉ q →
      x ∈ (refresh_rm_systems h systems q).2.1 := by
  intro q
  induction q with
  | nil => intro h systems hs _; exact hs
  | cons a q ih =>
    intro h systems hs hq
    have hax : x ≠ a := fun hh => hq (hh ▸ List.mem_cons_self a q)
    have hq' : x ∉ q := fun hh => hq (List.mem_cons_of_mem a hh)
    unfold refresh_rm_systems
    by_cases ha : a ∈ systems
    · simp only [ha, if_true]
      exact ih _ _ ((List.mem_erase_of_ne hax).2 hs) hq'
    · simp only [ha, if_false]
      exact ih _ _ hs hq'

/-- A `refresh` that runs through had only valid indices in both entity queues. -/
theorem refresh_valid (h h' : heap_t) (w w' : world_t) (tr : List event)
    (hr : refresh h w = some (h', w', tr)) :
    valid_ids w.rm_queue_entities w.entities ∧ valid_ids w.queue_entities w.entities := by
  unfold refresh at hr
  simp only at hr
  split at hr
  · simp at hr
  · rename_i es3 tr3 h3
    split at hr
    · simp at hr
    · rename_i es4 tr4 h4
      have hv3 := refresh_entities_valid _ _ _ _ _ _ _ _ h3
      have hv4 := refresh_entities_valid _ _ _ _ _ _ _ _ h4
      have hl3 := (refresh_entities_of_some _ _ _ _ _ _ _ _ h3).1
      refine ⟨hv3, ?_⟩
      intro x hx
      rw [← hl3]
      exact hv4 x hx

/-- C11: the hook calls of one `refresh` split into four consecutive blocks: the
system-detach calls (`on_remove(world)`), then the system-attach calls (`on_add(world)`),
then the entity-removal calls, then the entity-addition calls. In particular, when a
registered system `A` is queued for removal and an unregistered system `B` is queued for
addition, both hooks are called, `A`'s detach in the first block and `B`'s attach in the
second. -/
theorem refresh_phase_order (h h' : heap_t) (w w' : world_t) (tr : List event)
    (hr : refresh h w = some (h', w', tr)) :
    ∃ t1 t2 t3 t4, tr = t1 ++ t2 ++ t3 ++ t4 ∧
      (∀ e ∈ t1, ∃ s, e = event.on_remove_world s) ∧
      (∀ e ∈ t2, ∃ s, e = event.on_add_world s) ∧
      (∀ e ∈ t3, ∃ s id, e = event.on_remove_entity s id) ∧
      (∀ e ∈ t4, ∃ s id, e = event.on_add_entity s id) ∧
      (∀ A B : Nat, A ∈ w.rm_queue_systems → A ∈ w.systems →
        B ∈ w.queue_systems → B ∉ w.systems →
        event.on_remove_world A ∈ t1 ∧ event.on_add_world B ∈ t2) := by
  obtain ⟨-, -, htr⟩ := refresh_trace h h' w w' tr hr
  refine ⟨_, _, _, _, htr, ?_, ?_, ?_, ?_, ?_⟩
  · intro e he
    obtain ⟨s, -, rfl⟩ := refresh_rm_systems_events _ _ _ e he
    exact ⟨s, rfl⟩
  · intro e he
    obtain ⟨s, -, rfl⟩ := refresh_add_systems_events _ _ _ e he
    exact ⟨s, rfl⟩
  · intro e he
    obtain ⟨id, -, hn⟩ := List.mem_flatMap.1 he
    obtain ⟨s, -, -, rfl⟩ := (notify_mem _ _ _ _ e).1 hn
    exact ⟨s, id, rfl⟩
  · intro e he
    obtain ⟨id, -, hn⟩ := List.mem_flatMap.1 he
    obtain ⟨s, -, -, rfl⟩ := (notify_mem _ _ _ _ e).1 hn
    exact ⟨s, id, rfl⟩
  · intro A B hA hAs hB hBs
    refine ⟨refresh_rm_systems_fires A _ _ _ hA hAs, refresh_add_systems_fires B _ _ _ hB ?_⟩
    intro hmem
    exact hBs (refresh_rm_systems_subset _ _ _ _ hmem)

/-- C12: in a `refresh`, the entity-removal (resp. entity-addition) hook of system `s` is
called for id `id` exactly when `id` is in the removal (resp. addition) queue, `s` is in the
system collection as the two system loops of this same `refresh` leave it, and the mask of
the record at `id` satisfies `(entity.mask & s.mask) == s.mask`. Every system queued for
addition is in that collection; a system registered once, queued for removal and not for
addition is not. The `active` flag does not occur in the condition. -/
theorem refresh_notification_filter (h h' : heap_t) (w w' : world_t) (tr : List event)
    (hr : refresh h w = some (h', w', tr)) :
    (∀ s id : Nat, event.on_remove_entity s id ∈ tr ↔
      id ∈ w.rm_queue_entities ∧ s ∈ w'.systems ∧
        ∃ e, w.entities[id]? = some e ∧ e.mask &&& (h s).mask = (h s).mask) ∧
    (∀ s id : Nat, event.on_add_entity s id ∈ tr ↔
      id ∈ w.queue_entities ∧ s ∈ w'.systems ∧
        ∃ e, w.entities[id]? = some e ∧ e.mask &&& (h s).mask = (h s).mask) ∧
    (∀ s : Nat, s ∈ w.queue_systems → s ∈ w'.systems) ∧
    (∀ s : Nat, s ∈ w.rm_queue_systems → s ∉ w.queue_systems → w.systems.count s ≤ 1 →
      s ∉ w'.systems) := by
  obtain ⟨hsys, -, htr⟩ := refresh_trace h h' w w' tr hr
  obtain ⟨hvrm, hvadd⟩ := refresh_valid h h' w w' tr hr
  have hmask : ∀ (q : List Nat) (id : Nat), valid_ids q w.entities → id ∈ q →
      ∃ e, w.entities[id]? = some e ∧ mask_at w.entities id = e.mask := by
    intro q id hv hid
    have hlt := hv id hid
    exact ⟨w.entities[id], List.getElem?_eq_getElem hlt,
      by simp [mask_at, List.getElem?_eq_getElem hlt]⟩
  refine ⟨?_, ?_, ?_, ?_⟩
  · intro s id
    rw [htr]
    simp only [List.mem_append, List.mem_flatMap, notify_mem]
    constructor
    · rintro (((he | he) | he) | he)
      · obtain ⟨x, -, hx⟩ := refresh_rm_systems_events _ _ _ _ he
        cases hx
      · obtain ⟨x, -, hx⟩ := refresh_add_systems_events _ _ _ _ he
        cases hx
      · obtain ⟨id', hid', x, hx, hm, heq⟩ := he
        cases heq
        obtain ⟨e, he1, he2⟩ := hmask _ _ hvrm hid'
        exact ⟨hid', hx, e, he1, by rw [← he2]; exact hm⟩
      · obtain ⟨id', -, x, -, -, heq⟩ := he
        cases heq
    · rintro ⟨hid, hs, e, he1, he2⟩
      obtain ⟨e', he1', he2'⟩ := hmask _ _ hvrm hid
      rw [he1] at he1'
      cases he1'
      exact Or.inl (Or.inr ⟨id, hid, s, hs, by rw [he2']; exact he2, rfl⟩)
  · intro s id
    rw [htr]
    simp only [List.mem_append, List.mem_flatMap, notify_mem]
    constructor
    · rintro (((he | he) | he) | he)
      · obtain ⟨x, -, hx⟩ := refresh_rm_systems_events _ _ _ _ he
        cases hx
      · obtain ⟨x, -, hx⟩ := refresh_add_systems_events _ _ _ _ he
        cases hx
      · obtain ⟨id', -, x, -, -, heq⟩ := he
        cases heq
      · obtain ⟨id', hid', x, hx, hm, heq⟩ := he
        cases heq
        obtain ⟨e, he1, he2⟩ := hmask _ _ hvadd hid'
        exact ⟨hid', hx, e, he1, by rw [← he2]; exact hm⟩
    · rintro ⟨hid, hs, e, he1, he2⟩
      obtain ⟨e', he1', he2'⟩ := hmask _ _ hvadd hid
      rw [he1] at he1'
      cases he1'
      exact Or.inr ⟨id, hid, s, hs, by rw [he2']; exact he2, rfl⟩
  · intro s hs
    rw [hsys]
    exact (refresh_add_systems_mem _ _ _ s).2 (Or.inr hs)
  · intro s hrm hnq hc hmem
    rw [hsys] at hmem
    rcases (refresh_add_systems_mem _ _ _ s).1 hmem with hh | hh
    · exact refresh_rm_systems_removes s _ _ _ hrm hc hh
    · exact hnq hh

/-- Witness of C11: in `demo_world` the detach call of system 0 comes first, then the attach
calls of systems 1 and 2, then the entity-removal calls for id 0, then the entity-addition
call for id 1. -/
theorem refresh_phase_order_witness :
    ∃ h' w' tr, refresh demo_heap demo_world = some (h', w', tr) ∧
      tr = [event.on_remove_world 0, event.on_add_world 1, event.on_add_world 2,
        event.on_remove_entity 1 0, event.on_remove_entity 2 0, event.on_add_entity 2 1] ∧
      ∃ t1 t2 t3 t4, tr = t1 ++ t2 ++ t3 ++ t4 ∧
        (∀ e ∈ t1, ∃ s, e = event.on_remove_world s) ∧
        (∀ e ∈ t2, ∃ s, e = event.on_add_world s) ∧
        (∀ e ∈ t3, ∃ s id, e = event.on_remove_entity s id) ∧
        (∀ e ∈ t4, ∃ s id, e = event.on_add_entity s id) ∧
        (∀ A B : Nat, A ∈ demo_world.rm_queue_systems → A ∈ demo_world.systems →
          B ∈ demo_world.queue_systems → B ∉ demo_world.systems →
          event.on_remove_world A ∈ t1 ∧ event.on_add_world B ∈ t2) :=
  ⟨_, _, _, rfl, rfl, refresh_phase_order demo_heap _ demo_world _ _ rfl⟩

/-- Witness of C12: in `demo_world`, system 1 (mask 2, added in this refresh) is notified of
the removal of entity 0 (mask 3) but not of the addition of entity 1 (mask 1); the inactive
system 2 (mask 0) is notified of both; system 0, removed in this refresh, of neither. -/
theorem refresh_notification_filter_witness :
    ∃ h' w' tr, refresh demo_heap demo_world = some (h', w', tr) ∧
      w'.systems = [1, 2] ∧
      (∀ s id : Nat, event.on_remove_entity s id ∈ tr ↔
        id ∈ demo_world.rm_queue_entities ∧ s ∈ w'.systems ∧
          ∃ e, demo_world.entities[id]? = some e ∧
            e.mask &&& (demo_heap s).mask = (demo_heap s).mask) ∧
      (∀ s id : Nat, event.on_add_entity s id ∈ tr ↔
        id ∈ demo_world.queue_entities ∧ s ∈ w'.systems ∧
          ∃ e, demo_world.entities[id]? = some e ∧
            e.mask &&& (demo_heap s).mask = (demo_heap s).mask) ∧
      (∀ s : Nat, s ∈ demo_world.queue_systems → s ∈ w'.systems) ∧
      (∀ s : Nat, s ∈ demo_world.rm_queue_systems → s ∉ demo_world.queue_systems →
        demo_world.systems.count s ≤ 1 → s ∉ w'.systems) :=
  ⟨_, _, _, rfl, rfl, refresh_notification_filter demo_heap _ demo_world _ _ rfl⟩

/-! ## Update: dispatch order -/

/-- Insertion sort on the relation "not greater by key" yields a permutation ordered by
key. -/
theorem insertionSort_by_key (key : Nat → Int) (l : List Nat) :
    (l.insertionSort (fun a b => decide (key b < key a) = false)).Perm l ∧
    (l.insertionSort (fun a b => decide (key b < key a) = false)).Pairwise
      (fun a b => key a ≤ key b) := by
  refine ⟨List.perm_insertionSort _ l, ?_⟩
  have htotal : IsTotal Nat (fun a b => decide (key b < key a) = false) :=
    ⟨fun a b => by
      simp only [decide_eq_false_iff_not, not_lt]
      exact le_total (key a) (key b)⟩
  have htrans : IsTrans Nat (fun a b => decide (key b < key a) = false) :=
    ⟨fun a b c hab hbc => by
      simp only [decide_eq_false_iff_not, not_lt] at hab hbc ⊢
      exact le_trans hab hbc⟩
  have hs := @List.sorted_insertionSort Nat (fun a b => decide (key b < key a) = false)
    _ htotal htrans l
  refine List.Pairwise.imp ?_ hs
  intro a b hab
  simpa using hab

/-- Insertion sort meets the contract of `std::sort`. -/
theorem insertion_sort_contract : std_sort_contract insertion_sort := by
  intro key l
  exact insertionSort_by_key key l

/-- The parts of an `update` that runs through. -/
theorem update_of_some (sort : sort_t) (h h' : heap_t) (w w' : world_t) (tr : List event)
    (hu : update sort h w = some (h', w', tr)) :
    ∃ w1 tr1, refresh h w = some (h', w1, tr1) ∧
      w'.systems = sort (fun a b => decide ((h' a).priority < (h' b).priority)) w1.systems ∧
      tr = tr1 ++ (w'.systems.filter (fun s => (h' s).active)).map event.update := by
  unfold update at hu
  split at hu
  · simp at hu
  · rename_i h1 w1 tr1 hr
    simp only [Option.some.injEq, Prod.mk.injEq] at hu
    obtain ⟨rfl, rfl, rfl⟩ := hu
    exact ⟨w1, tr1, hr, rfl, rfl⟩

/-- C13: for any `std::sort` meeting the standard's contract, after `update` the system
collection is a permutation of the collection `refresh` produced and is sorted by ascending
priority (so its priorities, read in order, are the sorted priorities of the registered
systems), and the hook calls of `update` are those of `refresh` followed by one `update`
call for each system with `active` set, in the sorted order. Priorities and `active` flags
are those the caller's objects had before the call. -/
theorem update_priority_order (sort : sort_t) (hsort : std_sort_contract sort)
    (h h' : heap_t) (w w' : world_t) (tr : List event)
    (hu : update sort h w = some (h', w', tr)) :
    ∃ w1 tr1, refresh h w = some (h', w1, tr1) ∧
      w'.systems.Perm w1.systems ∧
      w'.systems.Pairwise (fun a b => (h' a).priority ≤ (h' b).priority) ∧
      w'.systems.map (fun s => (h' s).priority) =
        (w1.systems.map (fun s => (h' s).priority)).insertionSort (fun x y => x ≤ y) ∧
      tr = tr1 ++ (w'.systems.filter (fun s => (h' s).active)).map event.update ∧
      (∀ s : Nat, (h' s).priority = (h s).priority ∧ (h' s).active = (h s).active) := by
  obtain ⟨w1, tr1, hr, hsys, htr⟩ := update_of_some sort h h' w w' tr hu
  obtain ⟨hperm, hsorted⟩ := hsort (fun s => (h' s).priority) w1.systems
  rw [← hsys] at hperm hsorted
  refine ⟨w1, tr1, hr, hperm, hsorted, ?_, htr, ?_⟩
  · refine List.eq_of_perm_of_sorted (r := fun x y : Int => x ≤ y) ?_ ?_ ?_
    · exact (hperm.map _).trans (List.perm_insertionSort _ _).symm
    · exact List.pairwise_map.2 hsorted
    · exact List.sorted_insertionSort _ _
  · intro s
    obtain ⟨-, hh, -⟩ := refresh_trace h h' w w1 tr1 hr
    rw [hh]
    obtain ⟨-, a1, a2⟩ := refresh_add_systems_heap w.queue_systems
      (refresh_rm_systems h w.systems w.rm_queue_systems).1
      (refresh_rm_systems h w.systems w.rm_queue_systems).2.1 s
    obtain ⟨-, b1, b2⟩ := refresh_rm_systems_heap w.rm_queue_systems h w.systems s
    exact ⟨a1.trans b1, a2.trans b2⟩

/-- Witness of C13: systems with priorities 3, 1, 2 (addresses 0, 1, 2) are registered in
this order; `update` attaches them and then calls their `update` hooks in the order of the
priorities 1, 2, 3, that is on the addresses 1, 2, 0. -/
theorem update_priority_order_witness :
    std_sort_contract insertion_sort ∧
    ∃ h' w' tr,
      update insertion_sort priority_heap
        (add_system (add_system (add_system world_t.create 0) 1) 2) = some (h', w', tr) ∧
      w'.systems = [1, 2, 0] ∧
      tr = [event.on_add_world 0, event.on_add_world 1, event.on_add_world 2,
        event.update 1, event.update 2, event.update 0] ∧
      ∃ w1 tr1,
        refresh priority_heap (add_system (add_system (add_system world_t.create 0) 1) 2) =
          some (h', w1, tr1) ∧
        w'.systems.Perm w1.systems ∧
        w'.systems.Pairwise (fun a b => (h' a).priority ≤ (h' b).priority) ∧
        w'.systems.map (fun s => (h' s).priority) =
          (w1.systems.map (fun s => (h' s).priority)).insertionSort (fun x y => x ≤ y) ∧
        tr = tr1 ++ (w'.systems.filter (fun s => (h' s).active)).map event.update ∧
        (∀ s : Nat, (h' s).priority = (priority_heap s).priority ∧
          (h' s).active = (priority_heap s).active) :=
  ⟨insertion_sort_contract, _, _, _, rfl, rfl, rfl,
    update_priority_order insertion_sort insertion_sort_contract priority_heap _
      (add_system (add_system (add_system world_t.create 0) 1) 2) _ _ rfl⟩

/-- The system-removal loop keeps a duplicate-free collection duplicate-free. -/
theorem refresh_rm_systems_nodup :
    ∀ (q : List Nat) (h : heap_t) (systems : List Nat), systems.Nodup →
      (refresh_rm_systems h systems q).2.1.Nodup := by
  intro q
  induction q with
  | nil => intro h systems hn; exact hn
  | cons a q ih =>
    intro h systems hn
    unfold refresh_rm_systems
    by_cases ha : a ∈ systems
    · simp only [ha, if_true]
      exact ih _ _ (hn.erase a)
    · simp only [ha, if_false]
      exact ih _ _ hn

/-- The system-addition loop keeps a duplicate-free collection duplicate-free. -/
theorem refresh_add_systems_nodup :
    ∀ (q : List Nat) (h : heap_t) (systems : List Nat), systems.Nodup →
      (refresh_add_systems h systems q).2.1.Nodup := by
  intro q
  induction q with
  | nil => intro h systems hn; exact hn
  | cons a q ih =>
    intro h systems hn
    unfold refresh_add_systems
    by_cases ha : a ∈ systems
    · simp only [ha, if_true]
      exact ih _ _ hn
    · simp only [ha, if_false]
      refine ih _ _ ?_
      rw [List.nodup_append]
      refine ⟨hn, List.nodup_singleton a, ?_⟩
      intro x hx hx'
      rw [List.mem_singleton] at hx'
      exact ha (hx' ▸ hx)

/-- The attach hook is never called on a system that is in the collection when the
system-addition loop starts. -/
theorem refresh_add_systems_silent (s : Nat) :
    ∀ (q : List Nat) (h : heap_t) (systems : List Nat), s ∈ systems →
      event.on_add_world s ∉ (refresh_add_systems h systems q).2.2 := by
  intro q
  induction q with
  | nil => intro h systems _; simp [refresh_add_systems]
  | cons a q ih =>
    intro h systems hs
    unfold refresh_add_systems
    by_cases ha : a ∈ systems
    · simp only [ha, if_true]
      exact ih _ _ hs
    · simp only [ha, if_false, List.mem_cons, not_or]
      refine ⟨?_, ih _ _ (List.mem_append_left _ hs)⟩
      intro heq
      cases heq
      exact ha hs

/-- The system-addition loop calls the attach hook of any one system at most once. -/
theorem refresh_add_systems_once (s : Nat) :
    ∀ (q : List Nat) (h : heap_t) (systems : List Nat),
      (refresh_add_systems h systems q).2.2.count (event.on_add_world s) ≤ 1 := by
  intro q
  induction q with
  | nil => intro h systems; simp [refresh_add_systems]
  | cons a q ih =>
    intro h systems
    unfold refresh_add_systems
    by_cases ha : a ∈ systems
    · simp only [ha, if_true]
      exact ih _ _
    · simp only [ha, if_false]
      by_cases has : a = s
      · subst has
        have hz := List.count_eq_zero.2 (refresh_add_systems_silent a q
          (Function.update h a { h a with world := true }) (systems ++ [a]) (by simp))
        rw [List.count_cons_self, hz]
      · have hne : (event.on_add_world a == event.on_add_world s) = false := by
          simp [has]
        rw [List.count_cons, hne]
        simpa using ih _ _

/-- C15: if the system collection has no duplicates before `refresh`, it has none after,
whatever the addition queue holds. Every system that was queued for addition, once or
several times, registered before or not, is in the collection exactly once afterwards; the
attach hook of any one system is called at most once in the `refresh`, and not at all for a
system that was registered and not queued for removal. -/
theorem refresh_system_registration_idempotent (h h' : heap_t) (w w' : world_t)
    (tr : List event) (hr : refresh h w = some (h', w', tr)) (hnd : w.systems.Nodup) :
    w'.systems.Nodup ∧
    (∀ s : Nat, s ∈ w.queue_systems → w'.systems.count s = 1) ∧
    (∀ s : Nat, tr.count (event.on_add_world s) ≤ 1) ∧
    (∀ s : Nat, s ∈ w.systems → s ∉ w.rm_queue_systems → event.on_add_world s ∉ tr) := by
  obtain ⟨hsys, -, htr⟩ := refresh_trace h h' w w' tr hr
  have hnd' : w'.systems.Nodup := by
    rw [hsys]
    exact refresh_add_systems_nodup _ _ _ (refresh_rm_systems_nodup _ _ _ hnd)
  have hother : ∀ s : Nat,
      event.on_add_world s ∉ (refresh_rm_systems h w.systems w.rm_queue_systems).2.2 ∧
      event.on_add_world s ∉ w.rm_queue_entities.flatMap (fun id =>
        notify h w'.systems (mask_at w.entities id)
          (fun s => event.on_remove_entity s id)) ∧
      event.on_add_world s ∉ w.queue_entities.flatMap (fun id =>
        notify h w'.systems (mask_at w.entities id) (fun s => event.on_add_entity s id)) := by
    intro s
    refine ⟨?_, ?_, ?_⟩
    · intro he
      obtain ⟨x, -, hx⟩ := refresh_rm_systems_events _ _ _ _ he
      cases hx
    · intro he
      obtain ⟨id, -, hn⟩ := List.mem_flatMap.1 he
      obtain ⟨x, -, -, hx⟩ := (notify_mem _ _ _ _ _).1 hn
      cases hx
    · intro he
      obtain ⟨id, -, hn⟩ := List.mem_flatMap.1 he
      obtain ⟨x, -, -, hx⟩ := (notify_mem _ _ _ _ _).1 hn
      cases hx
  refine ⟨hnd', ?_, ?_, ?_⟩
  · intro s hs
    refine List.count_eq_one_of_mem hnd' ?_
    rw [hsys]
    exact (refresh_add_systems_mem _ _ _ s).2 (Or.inr hs)
  · intro s
    obtain ⟨h1, h3, h4⟩ := hother s
    rw [htr, List.count_append, List.count_append, List.count_append,
      List.count_eq_zero.2 h1, List.count_eq_zero.2 h3, List.count_eq_zero.2 h4]
    simpa using refresh_add_systems_once s _ _ _
  · intro s hs hnq
    obtain ⟨h1, h3, h4⟩ := hother s
    have h2 := refresh_add_systems_silent s w.queue_systems
      (refresh_rm_systems h w.systems w.rm_queue_systems).1
      (refresh_rm_systems h w.systems w.rm_queue_systems).2.1
      (refresh_rm_systems_keeps s _ _ _ hs hnq)
    rw [htr]
    simp only [List.mem_append, not_or]
    exact ⟨⟨⟨h1, h2⟩, h3⟩, h4⟩

/-- Witness of C15: system 0 is registered and queued for addition again, system 1 is
queued for addition twice. -/
theorem refresh_system_registration_idempotent_witness :
    ∃ h' w' tr,
      refresh default_heap
        { world_t.create with systems := [0], queue_systems := [0, 1, 1] } =
          some (h', w', tr) ∧
      ([0] : List Nat).Nodup ∧
      w'.systems = [0, 1] ∧ tr = [event.on_add_world 1] ∧
      w'.systems.Nodup ∧
      (∀ s : Nat, s ∈ [0, 1, 1] → w'.systems.count s = 1) ∧
      (∀ s : Nat, tr.count (event.on_add_world s) ≤ 1) ∧
      (∀ s : Nat, s ∈ [0] → s ∉ ([] : List Nat) → event.on_add_world s ∉ tr) :=
  ⟨_, _, _, rfl, by decide, rfl, rfl,
    refresh_system_registration_idempotent default_heap _
      { world_t.create with systems := [0], queue_systems := [0, 1, 1] } _ _ rfl
      (by decide)⟩

/-- C16 (failing input): system 0 (mask 0) is registered and entity 0 is alive. Registering
entity 0 again makes the next `refresh` call the entity-addition hook for the already alive
id 0; registering it twice before one `refresh` makes that `refresh` call the hook twice.
The entity-addition loop has no check like the `std::find` of the system-addition loop. -/
theorem refresh_notifies_every_queued_id :
    (((get_entity (add_system world_t.create 0)).bind (fun p => add p.2 p.1)).bind
        (fun w => refresh default_heap w)).map (fun r => (r.2.1, r.2.2)) =
      some (world_one_system, [event.on_add_world 0, event.on_add_entity 0 0]) ∧
    ((add world_one_system ⟨true, 0, 0⟩).bind (fun w => refresh default_heap w)).map
        (fun r => r.2.2) = some [event.on_add_entity 0 0] ∧
    (((add world_one_system ⟨true, 0, 0⟩).bind (fun w => add w ⟨true, 0, 0⟩)).bind
        (fun w => refresh default_heap w)).map (fun r => r.2.2) =
      some [event.on_add_entity 0 0, event.on_add_entity 0 0] := by
  decide

/-! ## Clearing the entities -/

/-- The kill loop touches nothing but the removal queue and the dead counter, which wraps
like any 32-bit counter. -/
theorem kill_all_frame (xs : List entity_t) :
    ∀ w : world_t,
      (kill_all w xs).entities = w.entities ∧
      (kill_all w xs).queue_entities = w.queue_entities ∧
      (kill_all w xs).next_id = w.next_id ∧
      (kill_all w xs).systems = w.systems ∧
      (kill_all w xs).queue_systems = w.queue_systems ∧
      (kill_all w xs).rm_queue_systems = w.rm_queue_systems ∧
      (kill_all w xs).rm_queue_entities = w.rm_queue_entities ++ xs.map entity_t.id ∧
      (w.dead_entities < 2 ^ 32 →
        (kill_all w xs).dead_entities = (w.dead_entities + xs.length) % 2 ^ 32) := by
  induction xs with
  | nil =>
    intro w
    refine ⟨rfl, rfl, rfl, rfl, rfl, rfl, by simp [kill_all], ?_⟩
    intro hd
    simp only [kill_all, List.foldl_nil, List.length_nil, Nat.add_zero]
    exact (Nat.mod_eq_of_lt hd).symm
  | cons x xs ih =>
    intro w
    obtain ⟨h1, h2, h3, h4, h5, h6, h7, h8⟩ := ih (kill w x)
    have hfold : kill_all w (x :: xs) = kill_all (kill w x) xs := rfl
    rw [hfold]
    refine ⟨h1, h2, h3, h4, h5, h6, ?_, ?_⟩
    · rw [h7]
      simp [kill]
    · intro _
      have hk : (kill w x).dead_entities = (w.dead_entities + 1) % 2 ^ 32 := rfl
      have hlt : (kill w x).dead_entities < 2 ^ 32 := by
        rw [hk]
        exact Nat.mod_lt _ (by norm_num)
      rw [h8 hlt, hk]
      simp only [List.length_cons]
      omega

/-- C17 (counterexample): one entity was allocated and registered and is still pending in
the addition queue. After `clear_entities()` and `refresh()` it is stored with
`alive == true`: the additions are applied after the removals. -/
theorem clear_entities_leaves_pending_alive :
    run default_heap world_t.create [op.allocate, op.register ⟨false, 0, 0⟩] =
      some world_one_pending ∧
    (clear_entities world_one_pending).rm_queue_entities = [0] ∧
    (refresh default_heap (clear_entities world_one_pending)).map
      (fun r => r.2.1.entities) = some [⟨true, 0, 0⟩] := by
  decide

/-- C17 (amended): `clear_entities()` by itself changes no stored record and no length; it
appends the id of every stored record, in sequence order, to the removal queue, advances
`dead_entities` by the number of stored records (as the 32-bit counter it is) and leaves
every other field alone. When every record sits at the index given by its id and the queued
ids are valid indices, a subsequent `refresh()` runs through, and afterwards a stored entity
has `alive == true` exactly when its id was pending in the addition queue. -/
theorem clear_entities_then_refresh (w : world_t) (h : heap_t)
    (hdead : w.dead_entities < 2 ^ 32) :
    (clear_entities w).entities = w.entities ∧
    (clear_entities w).rm_queue_entities =
      w.rm_queue_entities ++ w.entities.map entity_t.id ∧
    (clear_entities w).dead_entities = (w.dead_entities + w.entities.length) % 2 ^ 32 ∧
    (clear_entities w).queue_entities = w.queue_entities ∧
    (clear_entities w).next_id = w.next_id ∧
    (clear_entities w).systems = w.systems ∧
    (clear_entities w).queue_systems = w.queue_systems ∧
    (clear_entities w).rm_queue_systems = w.rm_queue_systems ∧
    (ids_are_indices w.entities → valid_ids w.rm_queue_entities w.entities →
      valid_ids w.queue_entities w.entities →
      ∃ h' w' tr, refresh h (clear_entities w) = some (h', w', tr) ∧
        w'.entities.length = w.entities.length ∧
        ∀ (i : Nat) (e : entity_t), w'.entities[i]? = some e →
          (e.alive = true ↔ i ∈ w.queue_entities)) := by
  have hce : clear_entities w = kill_all w w.entities := rfl
  obtain ⟨h1, h2, h3, h4, h5, h6, h7, h8⟩ := kill_all_frame w.entities w
  rw [hce]
  refine ⟨h1, h7, h8 hdead, h2, h3, h4, h5, h6, ?_⟩
  intro hids hrm hadd
  have hrm' : valid_ids (kill_all w w.entities).rm_queue_entities
      (kill_all w w.entities).entities := by
    intro x hx
    rw [h7] at hx
    rw [h1]
    simp only [List.mem_append, List.mem_map] at hx
    rcases hx with hx | ⟨y, hy, rfl⟩
    · exact hrm x hx
    · exact id_lt_length_of_mem _ _ hids hy
  have hadd' : valid_ids (kill_all w w.entities).queue_entities
      (kill_all w w.entities).entities := by
    rw [h1, h2]
    exact hadd
  obtain ⟨h', w', tr, hr⟩ := refresh_isSome h _ hrm' hadd'
  obtain ⟨-, -, -, -, -, -, hlen, hget⟩ := refresh_of_some _ _ _ _ _ hr
  refine ⟨h', w', tr, hr, by rw [hlen, h1], ?_⟩
  intro i e hie
  rw [hget i, h1, h2, h7] at hie
  obtain ⟨y, hy, hye⟩ := Option.map_eq_some'.1 hie
  have hyi : y.id = i := hids i y hy
  have hmem : i ∈ w.rm_queue_entities ++ w.entities.map entity_t.id := by
    simp only [List.mem_append, List.mem_map]
    exact Or.inr ⟨y, List.getElem?_mem hy, hyi⟩
  by_cases hq : i ∈ w.queue_entities
  · simp only [hq, if_true] at hye
    subst hye
    simp [hq]
  · simp only [hq, if_false, hmem, if_true] at hye
    subst hye
    simp [hq]

/-- Witness of C17 (amended): entity 0 is alive and entity 1 is pending in the addition
queue; after `clear_entities()` and `refresh()` exactly entity 1 is alive. -/
theorem clear_entities_then_refresh_witness :
    world_alive_and_pending.dead_entities < 2 ^ 32 ∧
    ids_are_indices world_alive_and_pending.entities ∧
    valid_ids world_alive_and_pending.rm_queue_entities world_alive_and_pending.entities ∧
    valid_ids world_alive_and_pending.queue_entities world_alive_and_pending.entities ∧
    (clear_entities world_alive_and_pending).rm_queue_entities = [0, 1] ∧
    (clear_entities world_alive_and_pending).dead_entities = 2 ∧
    ∃ h' w' tr,
      refresh default_heap (clear_entities world_alive_and_pending) = some (h', w', tr) ∧
      w'.entities.length = world_alive_and_pending.entities.length ∧
      ∀ (i : Nat) (e : entity_t), w'.entities[i]? = some e →
        (e.alive = true ↔ i ∈ world_alive_and_pending.queue_entities) :=
  have hids : ids_are_indices world_alive_and_pending.entities :=
    (reachable_invariant _ (reachable_of_run default_heap
      [op.allocate, op.register ⟨false, 0, 0⟩, op.refresh, op.allocate,
        op.register ⟨false, 1, 0⟩]
      world_t.create world_alive_and_pending Reachable.start (by decide))).1
  ⟨by decide, hids, by decide, by decide, by decide, by decide,
    (clear_entities_then_refresh world_alive_and_pending default_heap
      (by decide)).2.2.2.2.2.2.2.2 hids (by decide) (by decide)⟩

/-! ## Ids as indices, and the recycling fallback -/

/-- C18 (failing input): two entities are allocated (ids 0 and 1) and the second is
registered first. The `push_back` of `add` puts the record with id 1 at index 0, and the
assignment `entities[1] = entity` that follows is out of range. -/
theorem register_out_of_order_breaks_index :
    run default_heap world_t.create [op.allocate, op.allocate] =
      some { world_t.create with next_id := 2 } ∧
    ((get_entity world_t.create).bind (fun p => get_entity p.2)).map (fun p => p.1) =
      some ⟨false, 1, 0⟩ ∧
    ((({ world_t.create with next_id := 2 } : world_t).entities ++
      [(⟨false, 1, 0⟩ : entity_t)])[0]?).map entity_t.id = some 1 ∧
    add { world_t.create with next_id := 2 } ⟨false, 1, 0⟩ = none := by
  decide

/-- C19 (failing input): two entities are spawned and activated, both are killed, one
replacement is spawned and a refresh follows, every call within the discipline. The
replacement reused record 1 while entry 0 was erased from the removal queue, so record 0
was never deactivated: `dead_entities` is 1, the removal queue is empty and every stored
record is alive. The next `get_entity` falls through to the minting branch. -/
theorem disciplined_use_reaches_fallback :
    drun default_heap world_t.create
      [dop.allocate_register 0, dop.allocate_register 0, dop.refresh, dop.kill 0,
        dop.kill 1, dop.allocate_register 0, dop.refresh] =
      some { world_t.create with
        entities := [⟨true, 0, 0⟩, ⟨true, 1, 0⟩], dead_entities := 1, next_id := 2 } ∧
    scan_dead [⟨true, 0, 0⟩, ⟨true, 1, 0⟩] = none ∧
    get_entity { world_t.create with
        entities := [⟨true, 0, 0⟩, ⟨true, 1, 0⟩], dead_entities := 1, next_id := 2 } =
      some (⟨false, 2, 0⟩, { world_t.create with
        entities := [⟨true, 0, 0⟩, ⟨true, 1, 0⟩], dead_entities := 1, next_id := 3 }) := by
  decide

/-! ## Component storage growth -/

/-- More iterations allowed do not change what the loop of `resize` computes. -/
theorem resize_loop_mono (id : Nat) :
    ∀ (fuel c x : Nat), resize_loop fuel c id = some x →
      resize_loop (fuel + 1) c id = some x := by
  intro fuel
  induction fuel with
  | zero =>
    intro c x hx
    unfold resize_loop at hx
    by_cases hc : c ≤ id
    · simp [hc] at hx
    · simp only [hc, if_false] at hx
      simp [resize_loop, hc, hx]
  | succ n ih =>
    intro c x hx
    unfold resize_loop at hx
    by_cases hc : c ≤ id
    · simp only [hc, if_true] at hx
      have := ih _ x hx
      rw [resize_loop]
      simp only [hc, if_true]
      exact this
    · simp only [hc, if_false] at hx
      rw [resize_loop]
      simp [hc, hx]

/-- A result of the loop of `resize` stays the result under any larger bound. -/
theorem resize_loop_mono_le (id c x : Nat) (f : Nat) (hx : resize_loop f c id = some x) :
    ∀ f' : Nat, f ≤ f' → resize_loop f' c id = some x := by
  intro f' hle
  induction f' with
  | zero =>
    have : f = 0 := by omega
    subst this
    exact hx
  | succ n ih =>
    by_cases hfn : f = n + 1
    · subst hfn
      exact hx
    · exact resize_loop_mono id n c x (ih (by omega))

/-- From a capacity of at least 1, the loop of `resize` is the doubling of the
specification: for a 32-bit `id` the shift never overflows the 64-bit `size_t`. -/
theorem resize_loop_eq_spec (id : Nat) (hid : id < 2 ^ 32) :
    ∀ (fuel c : Nat), 1 ≤ c → id < c * 2 ^ fuel →
      resize_loop fuel c id = some (spec_capacity_loop fuel c id) := by
  intro fuel
  induction fuel with
  | zero =>
    intro c _ hlt
    have hc : ¬ c ≤ id := by
      simp only [pow_zero, Nat.mul_one] at hlt
      omega
    simp [resize_loop, spec_capacity_loop, hc]
  | succ n ih =>
    intro c hc1 hlt
    by_cases hc : c ≤ id
    · have hmax : max c 1 = c := Nat.max_eq_left hc1
      have hshift : (max c 1 <<< 1) % 2 ^ 64 = 2 * c := by
        rw [hmax, Nat.shiftLeft_eq, pow_one]
        have h64 : c * 2 < 2 ^ 64 := by
          have : (2 : Nat) ^ 32 * 2 < 2 ^ 64 := by norm_num
          omega
        rw [Nat.mod_eq_of_lt h64]
        omega
      have hlt' : id < 2 * c * 2 ^ n := by
        have : c * 2 ^ (n + 1) = 2 * c * 2 ^ n := by
          rw [pow_succ]
          ring
        omega
      rw [resize_loop, spec_capacity_loop]
      simp only [hc, if_true, hshift]
      exact ih (2 * c) (by omega) hlt'
    · rw [resize_loop, spec_capacity_loop]
      simp [hc]

/-- The doubling of the specification computes the least `c * 2 ^ k` above `id`. -/
theorem spec_capacity_loop_least (id : Nat) :
    ∀ (fuel c : Nat), 1 ≤ c → id < c * 2 ^ fuel →
      ∃ k, spec_capacity_loop fuel c id = c * 2 ^ k ∧ id < c * 2 ^ k ∧
        ∀ j : Nat, id < c * 2 ^ j → k ≤ j := by
  intro fuel
  induction fuel with
  | zero =>
    intro c _ hlt
    exact ⟨0, by simp [spec_capacity_loop], by simpa using hlt, fun _ _ => Nat.zero_le _⟩
  | succ n ih =>
    intro c hc1 hlt
    by_cases hc : c ≤ id
    · have hlt' : id < 2 * c * 2 ^ n := by
        have : c * 2 ^ (n + 1) = 2 * c * 2 ^ n := by
          rw [pow_succ]
          ring
        omega
      obtain ⟨k, h1, h2, h3⟩ := ih (2 * c) (by omega) hlt'
      have hpow : ∀ j : Nat, 2 * c * 2 ^ j = c * 2 ^ (j + 1) := by
        intro j
        rw [pow_succ]
        ring
      refine ⟨k + 1, ?_, ?_, ?_⟩
      · rw [spec_capacity_loop]
        simp only [hc, if_true]
        rw [h1, hpow]
      · rw [← hpow]
        exact h2
      · intro j hj
        cases j with
        | zero =>
          simp only [pow_zero, Nat.mul_one] at hj
          omega
        | succ j =>
          rw [← hpow] at hj
          have := h3 j hj
          omega
    · refine ⟨0, ?_, ?_, fun _ _ => Nat.zero_le _⟩
      · rw [spec_capacity_loop]
        simp [hc]
      · simp only [pow_zero, Nat.mul_one]
        omega

/-- With a start of at least 1, a larger bound does not change the doubling of the
specification once the bound is large enough. -/
theorem spec_capacity_loop_fuel (id : Nat) (f f' c : Nat) (hc : 1 ≤ c)
    (hf : id < c * 2 ^ f) (hf' : id < c * 2 ^ f') :
    spec_capacity_loop f c id = spec_capacity_loop f' c id := by
  obtain ⟨k, h1, h2, h3⟩ := spec_capacity_loop_least id f c hc hf
  obtain ⟨k', h1', h2', h3'⟩ := spec_capacity_loop_least id f' c hc hf'
  have hk : k = k' := Nat.le_antisymm (h3 k' h2') (h3' k h2)
  rw [h1, h1', hk]

/-- The capacity of the specification is the least `max(c0, 1) * 2 ^ k`, `k ≥ 0`, that
strictly exceeds `id`. -/
theorem spec_capacity_least (c0 id : Nat) :
    ∃ k, spec_capacity c0 id = max c0 1 * 2 ^ k ∧ id < max c0 1 * 2 ^ k ∧
      ∀ j : Nat, id < max c0 1 * 2 ^ j → k ≤ j := by
  have hm : 1 ≤ max c0 1 := Nat.le_max_right c0 1
  have hlt : id < max c0 1 * 2 ^ (id + 1) := by
    have h1 : id < 2 ^ (id + 1) := Nat.lt_of_lt_of_le (Nat.lt_two_pow id) (Nat.pow_le_pow_right
      (by norm_num) (Nat.le_succ id))
    calc id < 2 ^ (id + 1) := h1
      _ = 1 * 2 ^ (id + 1) := (Nat.one_mul _).symm
      _ ≤ max c0 1 * 2 ^ (id + 1) := Nat.mul_le_mul_right _ hm
  exact spec_capacity_loop_least id (id + 1) (max c0 1) hm hlt

/-- Reserving capacity leaves the elements alone. -/
theorem vector_reserve_data {T : Type} (v : vector_t T) (n : Nat) :
    (vector_reserve v n).data = v.data := by
  unfold vector_reserve
  split <;> rfl

/-- The loop of `resize` does not run when the capacity already exceeds `id`. -/
theorem resize_loop_of_lt (c id : Nat) (hlt : id < c) (fuel : Nat) :
    resize_loop fuel c id = some c := by
  have hc : ¬ c ≤ id := by omega
  cases fuel <;> simp [resize_loop, hc]

/-- C20 (counterexample): from capacity 0 and for id 0 the loop of `resize` runs once and
computes 2, while starting at `max(0, 1) = 1` and doubling only until the value exceeds 0
gives 1. -/
theorem resize_capacity_from_empty :
    resize_loop 1 0 0 = some 2 ∧ resize_loop 64 0 0 = some 2 ∧ spec_capacity 0 0 = 1 := by
  decide

/-- C20 (amended): for every vector and every 32-bit `id` the loop of `resize` terminates
(32 iterations are always enough) and the capacity `c` it computes is the one of the
specification, the least `max(c0, 1) * 2 ^ k` above `id`, except from capacity 0 with
`id = 0`, where it is 2. For `id < 2 ^ 32 - 1`, `resize` then leaves the vector with size
`max(old size, id + 1)`, so index `id` is valid, and with the elements stored before
unchanged. -/
theorem resize_growth {T : Type} (d : T) (v : vector_t T) (id : Nat) (hid : id < 2 ^ 32) :
    ∃ c, (∀ fuel : Nat, 32 ≤ fuel → resize_loop fuel v.capacity id = some c) ∧
      (¬ (v.capacity = 0 ∧ id = 0) → c = spec_capacity v.capacity id) ∧
      (v.capacity = 0 → id = 0 → c = 2) ∧
      (id + 1 < 2 ^ 32 →
        ∃ v', (∀ fuel : Nat, 32 ≤ fuel → resize fuel d v id = some v') ∧
          v'.data.length = max v.data.length (id + 1) ∧
          id < v'.data.length ∧
          ∀ i : Nat, i < v.data.length → v'.data[i]? = v.data[i]?) := by
  have hloop : ∃ c, (∀ fuel : Nat, 32 ≤ fuel → resize_loop fuel v.capacity id = some c) ∧
      (¬ (v.capacity = 0 ∧ id = 0) → c = spec_capacity v.capacity id) ∧
      (v.capacity = 0 → id = 0 → c = 2) := by
    by_cases hlt : id < v.capacity
    · refine ⟨v.capacity, fun fuel _ => resize_loop_of_lt _ _ hlt fuel, ?_, ?_⟩
      · intro _
        have hmax : max v.capacity 1 = v.capacity := Nat.max_eq_left (by omega)
        have hc : ¬ v.capacity ≤ id := by omega
        simp [spec_capacity, spec_capacity_loop, hmax, hc]
      · intro h0
        omega
    · have hle : v.capacity ≤ id := by omega
      by_cases h00 : v.capacity = 0 ∧ id = 0
      · refine ⟨2, ?_, fun hn => absurd h00 hn, fun _ _ => rfl⟩
        intro fuel hf
        obtain ⟨f, rfl⟩ : ∃ f, fuel = f + 1 := ⟨fuel - 1, by omega⟩
        have hval : (max 0 1 <<< 1) % 2 ^ 64 = 2 := by decide
        rw [h00.1, h00.2, resize_loop]
        simp only [Nat.le_refl, if_true, hval]
        exact resize_loop_of_lt 2 0 (by norm_num) f
      · have hm1 : 1 ≤ max v.capacity 1 := Nat.le_max_right _ _
        have hmle : max v.capacity 1 ≤ id := by
          rcases Nat.eq_zero_or_pos v.capacity with h0 | hpos
          · have : id ≠ 0 := fun hh => h00 ⟨h0, hh⟩
            rw [h0]
            simp only [Nat.zero_max]
            omega
          · rw [Nat.max_eq_left hpos]
            exact hle
        have hshift : (max v.capacity 1 <<< 1) % 2 ^ 64 = 2 * max v.capacity 1 := by
          rw [Nat.shiftLeft_eq, pow_one]
          have h64 : max v.capacity 1 * 2 < 2 ^ 64 := by
            have : (2 : Nat) ^ 32 * 2 < 2 ^ 64 := by norm_num
            omega
          rw [Nat.mod_eq_of_lt h64]
          omega
        have h31 : id < 2 * max v.capacity 1 * 2 ^ 31 := by
          have : (2 : Nat) * 1 * 2 ^ 31 = 2 ^ 32 := by norm_num
          have hmono : 2 * 1 * 2 ^ 31 ≤ 2 * max v.capacity 1 * 2 ^ 31 :=
            Nat.mul_le_mul_right _ (Nat.mul_le_mul_left _ hm1)
          omega
        have hidf : id < 2 * max v.capacity 1 * 2 ^ id := by
          have h1 : id < 2 ^ id := Nat.lt_two_pow id
          have h2 : 1 * 2 ^ id ≤ 2 * max v.capacity 1 * 2 ^ id :=
            Nat.mul_le_mul_right _ (by omega)
          omega
        have hspec : spec_capacity v.capacity id =
            spec_capacity_loop 31 (2 * max v.capacity 1) id := by
          rw [spec_capacity, spec_capacity_loop]
          simp only [hmle, if_true]
          exact spec_capacity_loop_fuel id id 31 _ (by omega) hidf h31
        refine ⟨spec_capacity v.capacity id, ?_, fun _ => rfl, fun h0 hi => absurd ⟨h0, hi⟩ h00⟩
        intro fuel hf
        obtain ⟨f, rfl⟩ : ∃ f, fuel = f + 1 := ⟨fuel - 1, by omega⟩
        rw [resize_loop]
        simp only [hle, if_true, hshift, hspec]
        exact resize_loop_mono_le id _ _ 31
          (resize_loop_eq_spec id hid 31 _ (by omega) h31) f (by omega)
  obtain ⟨c, hc1, hc2, hc3⟩ := hloop
  refine ⟨c, hc1, hc2, hc3, ?_⟩
  intro hid1
  have hmod : (id + 1) % 4294967296 = id + 1 := Nat.mod_eq_of_lt (by omega)
  by_cases hsize : v.data.length ≤ id
  · refine ⟨vector_resize d (vector_reserve v c) (id + 1), ?_, ?_, ?_, ?_⟩
    · intro fuel hf
      simp [resize, hc1 fuel hf, hsize, hmod]
    · have hn : ¬ id + 1 ≤ v.data.length := by omega
      simp only [vector_resize, vector_reserve_data, hn, if_false, List.length_append,
        List.length_replicate]
      omega
    · have hn : ¬ id + 1 ≤ v.data.length := by omega
      simp only [vector_resize, vector_reserve_data, hn, if_false, List.length_append,
        List.length_replicate]
      omega
    · intro i hi
      have hn : ¬ id + 1 ≤ v.data.length := by omega
      simp only [vector_resize, vector_reserve_data, hn, if_false]
      exact List.getElem?_append_left hi
  · refine ⟨v, ?_, ?_, by omega, fun _ _ => rfl⟩
    · intro fuel hf
      simp [resize, hc1 fuel hf, hsize]
    · omega

/-- Witness of C20 (amended): a vector of size 2 and capacity 2 is resized for id 4; the
loop computes capacity 8 and the size becomes 5. -/
theorem resize_growth_witness :
    (4 : Nat) < 2 ^ 32 ∧
    resize_loop 32 2 4 = some 8 ∧ spec_capacity 2 4 = 8 ∧
    (resize 32 (0 : Nat) ⟨[7, 8], 2⟩ 4).map (fun v => v.data) = some [7, 8, 0, 0, 0] ∧
    ∃ c, (∀ fuel : Nat, 32 ≤ fuel → resize_loop fuel 2 4 = some c) ∧
      (¬ ((2 : Nat) = 0 ∧ (4 : Nat) = 0) → c = spec_capacity 2 4) ∧
      ((2 : Nat) = 0 → (4 : Nat) = 0 → c = 2) ∧
      ((4 : Nat) + 1 < 2 ^ 32 →
        ∃ v', (∀ fuel : Nat, 32 ≤ fuel →
            resize fuel (0 : Nat) ⟨[7, 8], 2⟩ 4 = some v') ∧
          v'.data.length = max ([7, 8] : List Nat).length (4 + 1) ∧
          4 < v'.data.length ∧
          ∀ i : Nat, i < ([7, 8] : List Nat).length →
            v'.data[i]? = ([7, 8] : List Nat)[i]?) :=
  ⟨by decide, by decide, by decide, by decide,
    resize_growth (0 : Nat) ⟨[7, 8], 2⟩ 4 (by decide)⟩

/-- At the largest 32-bit id the size argument `id+1` of `resize` wraps to 0: the loop
computes capacity `2 ^ 32`, and `resize(0)` leaves the vector empty. -/
theorem resize_at_largest_id :
    resize_loop 32 2 4294967295 = some 4294967296 ∧
    (resize 32 (0 : Nat) ⟨[7, 8], 2⟩ 4294967295).map (fun v => v.data) = some [] := by
  decide

end pecs
